import Mathlib

/-!
Verification development for the SEO / accessibility audit engine
(`runSeoA11yAudit` and its text-locator subsystem).

The raw markup is modelled as a `List Char` (the audited HTML text);
the parsed document is modelled as a tree of nodes (`Node`, `Doc`),
produced by the external lenient HTML parser.  All functions of the
engine are translated as total computable Lean functions.
-/

set_option maxHeartbeats 1000000

namespace SeoAudit

/-! ## Character classes used by the engine -/

/-- Line-break characters recognised by the position computation. -/
def isBreakChar (c : Char) : Bool := c == '\n' || c == '\r'

/-- Word characters, as in the regex `\b` (word-boundary) semantics. -/
def isWordChar (c : Char) : Bool := c.isAlpha || c.isDigit || c == '_'

/-- Line terminators, the characters the regex `.` (without the `s`
flag) does not match: `\n`, `\r`, U+2028, U+2029. -/
def isLineTerm (c : Char) : Bool :=
  c == '\n' || c == '\r' || c == '\u2028' || c == '\u2029'

/-! ## JavaScript string primitives used by the locators -/

/-- `pre.split(/\r\n|\r|\n/)` : split on line-break sequences, treating
`\r\n`, `\r` and `\n` each as a single separator (`\r\n` preferred). -/
def splitBreaks : List Char → List (List Char)
  | [] => [[]]
  | '\r' :: '\n' :: cs => [] :: splitBreaks cs
  | '\r' :: cs => [] :: splitBreaks cs
  | '\n' :: cs => [] :: splitBreaks cs
  | c :: cs =>
    match splitBreaks cs with
    | [] => [[c]]
    | s :: ss => (c :: s) :: ss

/-- Specification-side count of line-break sequences (each of `\r\n`,
`\r`, `\n` counted once). -/
def countBreaks : List Char → Nat
  | [] => 0
  | '\r' :: '\n' :: cs => 1 + countBreaks cs
  | '\r' :: cs => 1 + countBreaks cs
  | '\n' :: cs => 1 + countBreaks cs
  | _ :: cs => countBreaks cs

/-- `s.lastIndexOf(c)` : last index of character `c`, `-1` when absent. -/
def lastIndexOfC : List Char → Char → Int
  | [], _ => -1
  | d :: cs, c =>
    let r := lastIndexOfC cs c
    if 0 ≤ r then r + 1 else if d == c then 0 else -1

/-- Specification-side position of the nearest (i.e. last) line-break
character in a string, if any. -/
def lastBreakPos : List Char → Option Nat
  | [] => none
  | c :: cs =>
    match lastBreakPos cs with
    | some p => some (p + 1)
    | none => if isBreakChar c then some 0 else none

/-- `s.toLowerCase()` (ASCII case folding, as in the host language's
basic-latin lower-casing), written on the character list so that the
kernel can evaluate it. -/
def lowerStr (s : String) : String := (s.toList.map Char.toLower).asString

/-- `s.trim()` : strip leading and trailing whitespace. -/
def trimStr (s : String) : String :=
  (((s.toList.dropWhile Char.isWhitespace).reverse.dropWhile Char.isWhitespace).reverse).asString

/-- Split a character list at every character satisfying `p`. -/
def splitOnPred : List Char → (Char → Bool) → List (List Char)
  | [], _ => [[]]
  | c :: cs, p =>
    if p c then [] :: splitOnPred cs p
    else
      match splitOnPred cs p with
      | [] => [[c]]
      | s :: ss => (c :: s) :: ss

/-- `hay.indexOf(needle)` : first index of a plain substring occurrence. -/
def strIndexOf (hay needle : List Char) : Option Nat :=
  if needle.isPrefixOf hay then some 0
  else
    match hay with
    | [] => none
    | _ :: t => (strIndexOf t needle).map (· + 1)

/-! ## The locator's regular expressions

`locateElement` builds one of the two pattern shapes
`<\s*tag[^>]*\battr\s*=\s*["']value["'][^>]*>` and `<\s*tag\b[^>]*>`
and runs a case-insensitive search.  The attribute value has its regex
metacharacters escaped, hence is matched literally; the tag name is
interpolated into the pattern text unescaped, so its metacharacters
keep their regex meaning (`compileTag` below), and an interpolation
yielding an invalid pattern makes the `RegExp` constructor throw, which
`locateElement` catches into the empty locator.  The pattern language
is embedded as a token list and matching as a backtracking recogniser;
`regexSearch` is `html.search(re)`. -/

inductive RTok where
  | lit (c : Char)
  | wsStar
  | notGtStar
  | wordB
  | quoteCls
  | anyDot
deriving DecidableEq

/-- `\b` : word boundary between the previous and the next character
(a missing character counts as a non-word character). -/
def atBoundary (prev next : Option Char) : Bool :=
  (prev.elim false isWordChar) != (next.elim false isWordChar)

/-- One backtracking matching step, structurally recursive on a fuel
argument so that the kernel can evaluate it.  Every recursive call
decreases the lexicographic measure `(cs.length, ts.length)`, so the
fuel `(cs.length + 1) * (ts.length + 1)` of `matchToks` is sufficient
(`matchToksF_fuel` below). -/
def matchToksF : Nat → List RTok → List Char → Option Char → Bool
  | 0, _, _, _ => false
  | _ + 1, [], _, _ => true
  | f + 1, RTok.lit c :: ts, d :: cs, _ => (c.toLower == d.toLower) && matchToksF f ts cs (some d)
  | _ + 1, RTok.lit _ :: _, [], _ => false
  | f + 1, RTok.wsStar :: ts, cs, prev =>
    matchToksF f ts cs prev ||
      (match cs with
       | d :: cs2 => d.isWhitespace && matchToksF f (RTok.wsStar :: ts) cs2 (some d)
       | [] => false)
  | f + 1, RTok.notGtStar :: ts, cs, prev =>
    matchToksF f ts cs prev ||
      (match cs with
       | d :: cs2 => (d != '>') && matchToksF f (RTok.notGtStar :: ts) cs2 (some d)
       | [] => false)
  | f + 1, RTok.wordB :: ts, cs, prev => atBoundary prev cs.head? && matchToksF f ts cs prev
  | f + 1, RTok.quoteCls :: ts, d :: cs, _ => (d == '"' || d == '\x27') && matchToksF f ts cs (some d)
  | _ + 1, RTok.quoteCls :: _, [], _ => false
  | f + 1, RTok.anyDot :: ts, d :: cs, _ => !isLineTerm d && matchToksF f ts cs (some d)
  | _ + 1, RTok.anyDot :: _, [], _ => false

/-- Does the token list match some prefix of `cs`?  `prev` is the
character immediately before `cs` in the searched string (for `\b`).
Literal characters compare case-insensitively (the `i` flag). -/
def matchToks (ts : List RTok) (cs : List Char) (prev : Option Char) : Bool :=
  matchToksF ((cs.length + 1) * (ts.length + 1)) ts cs prev

/-- Scan positions left to right, returning the first index at which the
pattern matches. -/
def searchFrom (p : List RTok) : List Char → Option Char → Nat → Option Nat
  | cs, prev, i =>
    if matchToks p cs prev then some i
    else
      match cs with
      | [] => none
      | d :: cs2 => searchFrom p cs2 (some d) (i + 1)

/-- `html.search(re)` : index of the first match, `none` when no match. -/
def regexSearch (p : List RTok) (cs : List Char) : Option Nat := searchFrom p cs none 0

/-- The characters the source's value-escaping replace
(`/[.*+?^${}()|[\]\\]/g`) targets: the regex metacharacters.  The tag
name is interpolated into the pattern text WITHOUT this escaping, so
these characters keep their regex meaning there. -/
def escapeClassChars : List Char :=
  ['.', '*', '+', '?', '^', '$', '{', '}', '(', ')', '|', '[', ']', '\\']

/-- Compilation of one raw-interpolated tag-name character: an ordinary
character is a literal; `.` is the any-character class (line terminators
excepted).  The remaining metacharacters introduce quantifiers, groups,
classes, anchors, alternation or escapes: several of them (an unbalanced
group, a quantifier with nothing to repeat) make the interpolated
pattern invalid, so that `new RegExp` throws and the locator's `catch`
returns the empty locator; the rest fall outside the regex fragment this
embedding interprets.  Both are mapped to `none`, on which
`locateElement` conservatively returns the empty locator. -/
def compileTagChar (c : Char) : Option RTok :=
  if c == '.' then some RTok.anyDot
  else if escapeClassChars.contains c then none
  else some (RTok.lit c)

def compileTagList : List Char → Option (List RTok)
  | [] => some []
  | c :: cs =>
    match compileTagChar c with
    | none => none
    | some t =>
      match compileTagList cs with
      | none => none
      | some ts => some (t :: ts)

/-- The token compilation of the tag name interpolated, unescaped, into
the pattern text. -/
def compileTag (tn : String) : Option (List RTok) := compileTagList tn.toList

/-- The pattern `<\s*tn[^>]*\bk\s*=\s*["']v["'][^>]*>` (the value `v`
escaped, hence literal; `tagToks` the compiled interpolated tag name). -/
def patAttr (tagToks : List RTok) (k v : String) : List RTok :=
  [RTok.lit '<', RTok.wsStar] ++ tagToks ++ [RTok.notGtStar, RTok.wordB]
    ++ k.toList.map RTok.lit ++ [RTok.wsStar, RTok.lit '=', RTok.wsStar, RTok.quoteCls]
    ++ v.toList.map RTok.lit ++ [RTok.quoteCls, RTok.notGtStar, RTok.lit '>']

/-- The fallback pattern `<\s*tn\b[^>]*>` : the bare opening tag
(`tagToks` the compiled interpolated tag name). -/
def patFallback (tagToks : List RTok) : List RTok :=
  [RTok.lit '<', RTok.wsStar] ++ tagToks ++ [RTok.wordB, RTok.notGtStar, RTok.lit '>']

/-! ## Adequacy of the matcher fuel -/

theorem bound_lit {a b f : Nat} (h : (a + 1 + 1) * (b + 1 + 1) ≤ f + 1) : (a + 1) * (b + 1) ≤ f := by
  have h2 : (a + 1) * (b + 1) + (a + b + 3) = (a + 1 + 1) * (b + 1 + 1) := by ring
  omega

theorem bound_head {a b f : Nat} (h : (a + 1) * (b + 1 + 1) ≤ f + 1) : (a + 1) * (b + 1) ≤ f := by
  have h2 : (a + 1) * (b + 1) + (a + 1) = (a + 1) * (b + 1 + 1) := by ring
  omega

theorem bound_tail {a b f : Nat} (h : (a + 1 + 1) * (b + 1 + 1) ≤ f + 1) : (a + 1) * (b + 1 + 1) ≤ f := by
  have h2 : (a + 1) * (b + 1 + 1) + (b + 2) = (a + 1 + 1) * (b + 1 + 1) := by ring
  omega

/-- The matcher's result is independent of the fuel, once the fuel is at
least `(cs.length + 1) * (ts.length + 1)`: every recursive call decreases
`(cs.length, ts.length)` lexicographically. -/
theorem matchToksF_stable :
    ∀ (n f g : Nat) (ts : List RTok) (cs : List Char) (prev : Option Char),
      (cs.length + 1) * (ts.length + 1) ≤ f → (cs.length + 1) * (ts.length + 1) ≤ g →
      f ≤ n → matchToksF f ts cs prev = matchToksF g ts cs prev := by
  intro n
  induction n with
  | zero =>
    intro f g ts cs prev hf hg hfn
    have h1 : 1 ≤ (cs.length + 1) * (ts.length + 1) := Nat.one_le_iff_ne_zero.mpr (by positivity)
    omega
  | succ n ih =>
    intro f g ts cs prev hf hg hfn
    have h1 : 1 ≤ (cs.length + 1) * (ts.length + 1) := Nat.one_le_iff_ne_zero.mpr (by positivity)
    obtain ⟨f', rfl⟩ : ∃ f', f = f' + 1 := ⟨f - 1, by omega⟩
    obtain ⟨g', rfl⟩ : ∃ g', g = g' + 1 := ⟨g - 1, by omega⟩
    cases ts with
    | nil => simp [matchToksF]
    | cons t ts =>
      cases t with
      | lit c =>
        cases cs with
        | nil => simp [matchToksF]
        | cons d cs =>
          simp only [matchToksF]
          rw [ih f' g' ts cs (some d) (bound_lit hf) (bound_lit hg) (by omega)]
      | wsStar =>
        cases cs with
        | nil =>
          simp only [matchToksF]
          rw [ih f' g' ts [] prev (bound_head hf) (bound_head hg) (by omega)]
        | cons d cs =>
          simp only [matchToksF]
          rw [ih f' g' ts (d :: cs) prev (bound_head hf) (bound_head hg) (by omega),
            ih f' g' (RTok.wsStar :: ts) cs (some d) (bound_tail hf) (bound_tail hg) (by omega)]
      | notGtStar =>
        cases cs with
        | nil =>
          simp only [matchToksF]
          rw [ih f' g' ts [] prev (bound_head hf) (bound_head hg) (by omega)]
        | cons d cs =>
          simp only [matchToksF]
          rw [ih f' g' ts (d :: cs) prev (bound_head hf) (bound_head hg) (by omega),
            ih f' g' (RTok.notGtStar :: ts) cs (some d) (bound_tail hf) (bound_tail hg) (by omega)]
      | wordB =>
        simp only [matchToksF]
        rw [ih f' g' ts cs prev (bound_head hf) (bound_head hg) (by omega)]
      | quoteCls =>
        cases cs with
        | nil => simp [matchToksF]
        | cons d cs =>
          simp only [matchToksF]
          rw [ih f' g' ts cs (some d) (bound_lit hf) (bound_lit hg) (by omega)]
      | anyDot =>
        cases cs with
        | nil => simp [matchToksF]
        | cons d cs =>
          simp only [matchToksF]
          rw [ih f' g' ts cs (some d) (bound_lit hf) (bound_lit hg) (by omega)]

/-- Any fuel at least the canonical bound computes `matchToks`. -/
theorem matchToksF_eq_matchToks (f : Nat) (ts : List RTok) (cs : List Char) (prev : Option Char)
    (h : (cs.length + 1) * (ts.length + 1) ≤ f) :
    matchToksF f ts cs prev = matchToks ts cs prev :=
  matchToksF_stable f f ((cs.length + 1) * (ts.length + 1)) ts cs prev h (Nat.le_refl _) (Nat.le_refl _)

/-! ## Character facts about ASCII lower-casing -/

theorem char_eq_toNat (c d : Char) : (c = d) ↔ c.toNat = d.toNat := by
  constructor
  · intro h; rw [h]
  · intro h; exact Char.eq_of_val_eq (UInt32.ext h)

theorem beq_eq_decide (c d : Char) : (c == d) = decide (c = d) := by
  rw [Bool.eq_iff_iff]
  simp [beq_iff_eq]

theorem toNat_ofNat_small (n : Nat) (h : n < 55296) : (Char.ofNat n).toNat = n := by
  rw [Char.ofNat, dif_pos (Or.inl h)]
  rfl

theorem toLower_def_eq (c : Char) :
    Char.toLower c = if c.toNat ≥ 65 ∧ c.toNat ≤ 90 then Char.ofNat (c.toNat + 32) else c := rfl

theorem toLower_toNat (c : Char) :
    (Char.toLower c).toNat = if 65 ≤ c.toNat ∧ c.toNat ≤ 90 then c.toNat + 32 else c.toNat := by
  rw [toLower_def_eq]
  by_cases h : 65 ≤ c.toNat ∧ c.toNat ≤ 90
  · rw [if_pos h, if_pos h]
    exact toNat_ofNat_small _ (by omega)
  · rw [if_neg h, if_neg h]

theorem toLower_toLower (c : Char) : c.toLower.toLower = c.toLower := by
  rw [char_eq_toNat, toLower_toNat c.toLower, toLower_toNat c]
  by_cases h : 65 ≤ c.toNat ∧ c.toNat ≤ 90 <;> simp [h] <;> omega

theorem beq_toLower_nonletter (d e : Char) (h : e.toNat < 65 ∨ 122 < e.toNat) :
    (d.toLower == e) = (d == e) := by
  rw [beq_eq_decide, beq_eq_decide]
  apply decide_eq_decide.mpr
  rw [char_eq_toNat, char_eq_toNat, toLower_toNat]
  by_cases hc : 65 ≤ d.toNat ∧ d.toNat ≤ 90 <;> simp [hc] <;> omega

theorem isWhitespace_eq (c : Char) :
    c.isWhitespace = decide (c.toNat = 32 ∨ c.toNat = 9 ∨ c.toNat = 13 ∨ c.toNat = 10) := by
  simp [Char.isWhitespace, char_eq_toNat, Bool.or_assoc]

theorem isWhitespace_toLower (c : Char) : c.toLower.isWhitespace = c.isWhitespace := by
  rw [isWhitespace_eq, isWhitespace_eq]
  apply decide_eq_decide.mpr
  rw [toLower_toNat]
  by_cases hc : 65 ≤ c.toNat ∧ c.toNat ≤ 90 <;> simp [hc] <;> omega

theorem isUpper_eq (c : Char) : c.isUpper = decide (65 ≤ c.toNat ∧ c.toNat ≤ 90) := by
  simp only [Char.isUpper, Bool.decide_and]
  congr 1

theorem isLower_eq (c : Char) : c.isLower = decide (97 ≤ c.toNat ∧ c.toNat ≤ 122) := by
  simp only [Char.isLower, Bool.decide_and]
  congr 1

theorem isDigit_eq (c : Char) : c.isDigit = decide (48 ≤ c.toNat ∧ c.toNat ≤ 57) := by
  simp only [Char.isDigit, Bool.decide_and]
  congr 1

theorem isWordChar_eq (c : Char) :
    isWordChar c = decide ((65 ≤ c.toNat ∧ c.toNat ≤ 90) ∨ (97 ≤ c.toNat ∧ c.toNat ≤ 122) ∨
      (48 ≤ c.toNat ∧ c.toNat ≤ 57) ∨ c.toNat = 95) := by
  simp [isWordChar, Char.isAlpha, isUpper_eq, isLower_eq, isDigit_eq, beq_eq_decide,
    char_eq_toNat, Bool.or_assoc]

theorem isWordChar_toLower (c : Char) : isWordChar c.toLower = isWordChar c := by
  rw [isWordChar_eq, isWordChar_eq]
  apply decide_eq_decide.mpr
  rw [toLower_toNat]
  by_cases hc : 65 ≤ c.toNat ∧ c.toNat ≤ 90 <;> simp [hc] <;> omega

theorem isLineTerm_toLower (c : Char) : isLineTerm c.toLower = isLineTerm c := by
  unfold isLineTerm
  rw [beq_toLower_nonletter c '\n' (by decide), beq_toLower_nonletter c '\r' (by decide),
    beq_toLower_nonletter c '\u2028' (by decide), beq_toLower_nonletter c '\u2029' (by decide)]

/-! ## Case-insensitivity of the matcher and the search -/

theorem atBoundary_toLower (p q : Option Char) :
    atBoundary (p.map Char.toLower) (q.map Char.toLower) = atBoundary p q := by
  cases p <;> cases q <;> simp [atBoundary, Option.elim, isWordChar_toLower]

/-- Lower-casing the searched text does not change whether the pattern
matches: literal tokens compare case-insensitively and every character
class involved is stable under ASCII lower-casing. -/
theorem matchToksF_toLower :
    ∀ (f : Nat) (ts : List RTok) (cs : List Char) (prev : Option Char),
      matchToksF f ts (cs.map Char.toLower) (prev.map Char.toLower) = matchToksF f ts cs prev := by
  intro f
  induction f with
  | zero => intro ts cs prev; simp [matchToksF]
  | succ f ih =>
    intro ts cs prev
    cases ts with
    | nil => simp [matchToksF]
    | cons t ts =>
      cases t with
      | lit c =>
        cases cs with
        | nil => simp [matchToksF]
        | cons d cs =>
          simp only [List.map_cons, matchToksF]
          rw [toLower_toLower d]
          have h1 : some d.toLower = (some d).map Char.toLower := rfl
          rw [h1, ih ts cs (some d)]
      | wsStar =>
        cases cs with
        | nil =>
          simp only [List.map_nil, matchToksF]
          have h2 := ih ts [] prev
          simp only [List.map_nil] at h2
          rw [h2]
        | cons d cs =>
          simp only [List.map_cons, matchToksF]
          rw [isWhitespace_toLower d]
          have h1 : some d.toLower = (some d).map Char.toLower := rfl
          have h2 := ih ts (d :: cs) prev
          simp only [List.map_cons] at h2
          rw [h2, h1, ih (RTok.wsStar :: ts) cs (some d)]
      | notGtStar =>
        cases cs with
        | nil =>
          simp only [List.map_nil, matchToksF]
          have h2 := ih ts [] prev
          simp only [List.map_nil] at h2
          rw [h2]
        | cons d cs =>
          simp only [List.map_cons, matchToksF]
          have hne : (d.toLower != '>') = (d != '>') := by
            rw [bne, bne, beq_toLower_nonletter d '>' (by decide)]
          rw [hne]
          have h1 : some d.toLower = (some d).map Char.toLower := rfl
          have h2 := ih ts (d :: cs) prev
          simp only [List.map_cons] at h2
          rw [h2, h1, ih (RTok.notGtStar :: ts) cs (some d)]
      | wordB =>
        simp only [matchToksF]
        have h1 : (cs.map Char.toLower).head? = cs.head?.map Char.toLower := by
          cases cs <;> simp
        rw [h1, atBoundary_toLower, ih ts cs prev]
      | quoteCls =>
        cases cs with
        | nil => simp [matchToksF]
        | cons d cs =>
          simp only [List.map_cons, matchToksF]
          rw [beq_toLower_nonletter d '"' (by decide), beq_toLower_nonletter d '\x27' (by decide)]
          have h1 : some d.toLower = (some d).map Char.toLower := rfl
          rw [h1, ih ts cs (some d)]
      | anyDot =>
        cases cs with
        | nil => simp [matchToksF]
        | cons d cs =>
          simp only [List.map_cons, matchToksF]
          rw [isLineTerm_toLower d]
          have h1 : some d.toLower = (some d).map Char.toLower := rfl
          rw [h1, ih ts cs (some d)]

theorem matchToks_toLower (ts : List RTok) (cs : List Char) (prev : Option Char) :
    matchToks ts (cs.map Char.toLower) (prev.map Char.toLower) = matchToks ts cs prev := by
  unfold matchToks
  rw [List.length_map]
  exact matchToksF_toLower _ ts cs prev

theorem searchFrom_eq (p : List RTok) (cs : List Char) (prev : Option Char) (i : Nat) :
    searchFrom p cs prev i =
      if matchToks p cs prev then some i
      else
        match cs with
        | [] => none
        | d :: cs2 => searchFrom p cs2 (some d) (i + 1) := by
  cases cs <;> rfl

theorem searchFrom_toLower (p : List RTok) :
    ∀ (cs : List Char) (prev : Option Char) (i : Nat),
      searchFrom p (cs.map Char.toLower) (prev.map Char.toLower) i = searchFrom p cs prev i := by
  intro cs
  induction cs with
  | nil =>
    intro prev i
    rw [List.map_nil, searchFrom_eq, searchFrom_eq]
    have h2 := matchToks_toLower p [] prev
    simp only [List.map_nil] at h2
    rw [h2]
  | cons d cs ih =>
    intro prev i
    rw [List.map_cons, searchFrom_eq, searchFrom_eq]
    have h2 := matchToks_toLower p (d :: cs) prev
    simp only [List.map_cons] at h2
    rw [h2]
    by_cases h : matchToks p (d :: cs) prev = true
    · rw [if_pos h, if_pos h]
    · rw [if_neg h, if_neg h]
      show searchFrom p (List.map Char.toLower cs) (some d.toLower) (i + 1) =
        searchFrom p cs (some d) (i + 1)
      have h1 : some d.toLower = (some d).map Char.toLower := rfl
      rw [h1, ih (some d) (i + 1)]

/-- Case-insensitivity of the locator search: lower-casing the raw markup
does not change the matched index. -/
theorem regexSearch_toLower (p : List RTok) (cs : List Char) :
    regexSearch p (cs.map Char.toLower) = regexSearch p cs := by
  unfold regexSearch
  simpa using searchFrom_toLower p cs none 0

/-! ## The parsed document

The structural tree produced by the external lenient HTML parser
(`DOMParser`).  `tagName` is stored as the DOM reports it (upper-case
for HTML elements); attributes are the parsed attribute list in document
order (first occurrence wins for `getAttribute`). -/

inductive Node where
  | element (tagName : String) (attributes : List (String × String)) (children : List Node)
  | text (data : String)

/-- `el.tagName` (text nodes never reach the element operations). -/
def Node.tagName : Node → String
  | .element t _ _ => t
  | .text _ => ""

/-- `el.getAttribute(key)` : `null` when absent. -/
def Node.getAttribute (n : Node) (key : String) : Option String :=
  match n with
  | .element _ attrs _ => (attrs.find? (fun kv => kv.1 == key)).map (fun kv => kv.2)
  | .text _ => none

mutual

/-- `node.textContent` : concatenated text of all descendants. -/
def Node.textContent : Node → String
  | .text s => s
  | .element _ _ cs => Node.textContentList cs

def Node.textContentList : List Node → String
  | [] => ""
  | n :: ns => n.textContent ++ Node.textContentList ns

end

mutual

/-- All elements of the subtree in document (pre-)order, the root
element included. -/
def Node.allElements : Node → List Node
  | .text _ => []
  | .element t a cs => .element t a cs :: Node.allElementsList cs

def Node.allElementsList : List Node → List Node
  | [] => []
  | n :: ns => n.allElements ++ Node.allElementsList ns

end

/-- The parsed document.  `head` and `body` are the nodes returned by
`doc.head` / `doc.body`; HTML parsing always materialises them, so they
are never null. -/
structure Doc where
  documentElement : Node
  head : Node
  body : Node

/-- `doc.querySelectorAll(sel)` for the simple selectors the audit uses:
all elements, in document order, satisfying the predicate. -/
def Doc.querySelectorAll (d : Doc) (p : Node → Bool) : List Node :=
  d.documentElement.allElements.filter p

/-- `doc.querySelector(sel)` : first match in document order, if any. -/
def Doc.querySelector (d : Doc) (p : Node → Bool) : Option Node :=
  (d.querySelectorAll p).head?

/-- Selector `tag` : tag name matches case-insensitively. -/
def tagIs (t : String) (n : Node) : Bool := lowerStr n.tagName == t

/-- Attribute-value selector `[key="v"]`. -/
def attrEq (key v : String) (n : Node) : Bool := n.getAttribute key == some v

/-- Attribute-presence selector `[key]`. -/
def hasAttr (key : String) (n : Node) : Bool := (n.getAttribute key).isSome

/-- Selector `h1,h2,h3,h4,h5,h6`. -/
def isHeading (n : Node) : Bool :=
  tagIs "h1" n || tagIs "h2" n || tagIs "h3" n || tagIs "h4" n || tagIs "h5" n || tagIs "h6" n

/-! ## Selector Deriver -/

/-- The `tag.class` / bare-tag fallback of `cssSelector`. -/
def cssClassPart (nm : String) (el : Node) : String :=
  let cls := ((splitOnPred (trimStr ((el.getAttribute "class").getD "")).toList
    Char.isWhitespace).map List.asString).filter (fun s => s != "")
  match cls with
  | c0 :: _ => nm ++ "." ++ c0
  | [] => nm

/-- `cssSelector(el)` : `tag#id`, else `tag.firstClass`, else `tag`
(an empty `id` attribute is falsy in the source, hence skipped). -/
def cssSelector (el : Node) : String :=
  let nm := lowerStr el.tagName
  match el.getAttribute "id" with
  | some i => if i = "" then cssClassPart nm el else nm ++ "#" ++ i
  | none => cssClassPart nm el

/-! ## Text Locator -/

structure Locator where
  line : Option Int := none
  column : Option Int := none
  snippet : Option String := none
deriving DecidableEq

/-- Shared position computation at a found match index: the line is the
number of segments of `pre.split(/\r\n|\r|\n/)`, the column is
`idx - lastLineStart` (`lastLineStart = max(lastIndexOf "\n", lastIndexOf "\r")`,
`-1` when absent), the snippet is `html.slice(max(0, idx - 120), min(len, idx + after))`. -/
def locAt (html : List Char) (idx after : Nat) : Locator :=
  let pre := html.take idx
  let lastLineStart : Int := max (lastIndexOfC pre '\n') (lastIndexOfC pre '\r')
  { line := some ((splitBreaks pre).length : Int),
    column := some ((idx : Int) - (if 0 ≤ lastLineStart then lastLineStart else -1)),
    snippet := some (((html.drop (idx - 120)).take (min html.length (idx + after) - (idx - 120))).asString) }

/-- The candidate attributes of `locateElement`, in priority order. -/
def attrCandidates (el : Node) : List (String × Option String) :=
  [("id", el.getAttribute "id"), ("name", el.getAttribute "name"),
   ("property", el.getAttribute "property"), ("rel", el.getAttribute "rel"),
   ("href", el.getAttribute "href"), ("src", el.getAttribute "src")]

/-- `v && v.trim()` : a candidate is usable when its value is present and
non-empty after trimming. -/
def usable : String × Option String → Bool
  | (_, some v) => trimStr v != ""
  | (_, none) => false

/-- The first usable candidate attribute, in priority order. -/
def prioritySelect (el : Node) : Option (String × Option String) :=
  (attrCandidates el).find? usable

/-- The search pattern `locateElement` builds for a node: the tag name
(lower-cased) is interpolated unescaped and compiled by `compileTag`;
`none` when the compilation fails (the throwing / uninterpreted
constructions). -/
def patternFor (el : Node) : Option (List RTok) :=
  let tn := lowerStr el.tagName
  match compileTag tn with
  | none => none
  | some tagToks =>
    match prioritySelect el with
    | some (k, some v) => some (patAttr tagToks k v)
    | _ => some (patFallback tagToks)

/-- `locateElement(el, html)` : search the raw markup for the node's
opening-tag pattern; on a match, report position and a
`[idx - 120, idx + 240)` snippet window; otherwise — no match, or the
pattern construction failed — an empty locator (the source's `catch`
branch). -/
def locateElement (el : Node) (html : List Char) : Locator :=
  match patternFor el with
  | none => {}
  | some p =>
    match regexSearch p html with
    | some idx => locAt html idx 240
    | none => {}

/-- `locateQuery(html, query)` : first plain occurrence of a literal
substring; on a match, report position and a
`[idx - 120, idx + query.length + 120)` snippet window. -/
def locateQuery (html : List Char) (query : String) : Locator :=
  match strIndexOf html query.toList with
  | some idx => locAt html idx (query.length + 120)
  | none => {}

/-! ## Findings and the Finding Emitter -/

inductive Severity where
  | success
  | warning
  | error
deriving DecidableEq

structure AuditResult where
  id : String
  severity : Severity
  message : String
  selector : Option String := none
  line : Option Int := none
  column : Option Int := none
  snippet : Option String := none
  recommendation : Option String := none
deriving DecidableEq

/-- The locator the emitter uses: by node when a node is supplied, else
by literal query when one is supplied (a non-empty string: the empty
string is falsy), else empty. -/
def locFor (html : List Char) (el : Option Node) (queryForLocate : Option String) : Locator :=
  match el with
  | some e => locateElement e html
  | none =>
    match queryForLocate with
    | some q => if q = "" then {} else locateQuery html q
    | none => {}

/-- The finding constructed by one call of the emitter `push`. -/
def mkFinding (html : List Char) (severity : Severity) (fid message : String)
    (el : Option Node) (recommendation : Option String) (queryForLocate : Option String) :
    AuditResult :=
  let loc : Locator := locFor html el queryForLocate
  { id := fid, severity := severity, message := message,
    selector := el.map cssSelector,
    line := loc.line, column := loc.column,
    snippet := loc.snippet.map trimStr,
    recommendation := recommendation }

/-- The emitter: append one finding to the output sequence. -/
def push (html : List Char) (out : List AuditResult) (severity : Severity) (fid message : String)
    (el : Option Node) (recommendation : Option String) (queryForLocate : Option String) :
    List AuditResult :=
  out ++ [mkFinding html severity fid message el recommendation queryForLocate]

/-! ## The Rule Engine

Each check is one section of `runSeoA11yAudit`, written as a function
that extends the shared output sequence (the source's `push` closure
over the mutable `out` array). -/

/-- `Number(h.tagName.substring(1))` for the heading elements
(`h1` … `h6`: the digits after the initial letter; `0` otherwise, as the
non-numeric results never compare greater below). -/
def headingLevel (h : Node) : Nat :=
  let ds := h.tagName.toList.drop 1
  if ds ≠ [] ∧ ds.all Char.isDigit then ds.foldl (fun a c => a * 10 + (c.toNat - 48)) 0 else 0

/-- `/(sub)/.test(s)` for a literal `sub` : plain substring containment. -/
def containsStr (s sub : String) : Bool := (strIndexOf s.toList sub.toList).isSome

/-- `(s || "").replace(/\s+/g, " ").trim()` : collapse whitespace runs
and trim. -/
def collapseWs (s : String) : String :=
  String.intercalate " "
    (((splitOnPred s.toList Char.isWhitespace).map List.asString).filter (fun t => t != ""))

/-- One step of the `Map`-based id tally: increment an existing key,
else append it (insertion order preserved, as a JS `Map`). -/
def bump (acc : List (String × Nat)) (s : String) : List (String × Nat) :=
  if acc.any (fun kc => kc.1 == s) then
    acc.map (fun kc => if kc.1 == s then (kc.1, kc.2 + 1) else kc)
  else acc ++ [(s, 1)]

/-- The id tally: occurrence counts keyed in first-occurrence order. -/
def tally (l : List String) : List (String × Nat) := l.foldl bump []

/-- Check 1: `<html lang>`. -/
def langBlock (d : Doc) (html : List Char) (out : List AuditResult) : List AuditResult :=
  let lang := ((d.documentElement.getAttribute "lang").map trimStr).getD ""
  if lang = "" then
    push html out .error "lang-missing" "Missing <html lang>." (some d.documentElement)
      (some "Set the <html lang> attribute, e.g., <html lang=\"en\">.") none
  else
    push html out .success "lang-ok" ("HTML lang present (" ++ lang ++ ").")
      (some d.documentElement) none none

/-- Check 2: `<title>` presence and length. -/
def titleBlock (d : Doc) (html : List Char) (out : List AuditResult) : List AuditResult :=
  let titleEl := d.querySelector (tagIs "title")
  let title := (titleEl.map (fun t => trimStr t.textContent)).getD ""
  if title = "" then
    push html out .error "title-missing" "Missing <title>." (some (titleEl.getD d.head))
      (some "Add a descriptive, unique <title> (10–60 chars).") (some "<title>")
  else if title.length < 10 ∨ 60 < title.length then
    push html out .warning "title-length"
      ("Title length " ++ toString title.length ++ " (aim 10–60).") titleEl
      (some "Rewrite title to recommended length.") none
  else
    push html out .success "title-ok"
      ("Title present and well sized (" ++ toString title.length ++ ").") titleEl none none

/-- Check 3: meta description presence and length. -/
def metaDescBlock (d : Doc) (html : List Char) (out : List AuditResult) : List AuditResult :=
  let descEl := d.querySelector (fun n => tagIs "meta" n && attrEq "name" "description" n)
  let desc := ((descEl.bind (fun e => e.getAttribute "content")).map trimStr).getD ""
  if desc = "" then
    push html out .warning "meta-desc-missing" "Missing meta description." (some d.head)
      (some "Add <meta name=\"description\" content=\"…\"> (50–160 chars).")
      (some "meta name=\"description\"")
  else if desc.length < 50 ∨ 160 < desc.length then
    push html out .warning "meta-desc-length"
      ("Meta description length " ++ toString desc.length ++ " (aim 50–160).") descEl
      (some "Rewrite description to recommended length.") none
  else
    push html out .success "meta-desc-ok" "Meta description present and well sized." descEl
      none none

/-- Check 4: canonical link.  The source tests `canonical?.href`, the
resolved URL property: it is non-empty exactly when the element exists
and carries an `href` attribute (an attribute value, even empty,
resolves against the document base URL). -/
def canonicalBlock (d : Doc) (html : List Char) (out : List AuditResult) : List AuditResult :=
  let canonical := d.querySelector (fun n => tagIs "link" n && attrEq "rel" "canonical" n)
  let hasHref := match canonical with
    | some e => (e.getAttribute "href").isSome
    | none => false
  if hasHref = false then
    push html out .warning "canonical-missing" "Canonical URL missing." (some d.head)
      (some "Add <link rel=\"canonical\" href=\"…\">.") (some "link rel=\"canonical\"")
  else
    push html out .success "canonical-ok" "Canonical URL present." canonical none none

/-- Check 5a: exactly one `<h1>`. -/
def h1Block (d : Doc) (html : List Char) (out : List AuditResult) : List AuditResult :=
  let headings := d.querySelectorAll isHeading
  let h1s := headings.filter (tagIs "h1")
  if h1s.length ≠ 1 then
    push html out .warning "h1-count"
      ("Expected exactly 1 <h1>, found " ++ toString h1s.length ++ ".")
      (some (h1s.head?.getD d.body))
      (some "Use a single H1 and demote others to H2/H3 as needed.") none
  else
    push html out .success "h1-ok" "Exactly one H1 present." h1s.head? none none

/-- The `headings.forEach` walk of check 5b: `prev` is the previous
heading level (`0` before the first), `idx` the index in the headings
list, `issues` the running jump count. -/
def hoGo (html : List Char) (out : List AuditResult) :
    List Node → Nat → Nat → Nat → List AuditResult × Nat
  | [], _, _, issues => (out, issues)
  | h :: hs, prev, idx, issues =>
    let level := headingLevel h
    if prev ≠ 0 ∧ prev + 1 < level then
      hoGo html
        (push html out .warning ("heading-order-" ++ toString idx)
          ("Heading jumps from H" ++ toString prev ++ " to H" ++ toString level ++ ".") (some h)
          (some "Adjust heading levels to avoid skipping levels.") none)
        hs level (idx + 1) (issues + 1)
    else
      hoGo html out hs level (idx + 1) issues

/-- Check 5b: heading order. -/
def headingOrderBlock (d : Doc) (html : List Char) (out : List AuditResult) : List AuditResult :=
  let headings := d.querySelectorAll isHeading
  let r := hoGo html out headings 0 0 0
  if r.2 = 0 then
    if headings.length > 0 then
      push html r.1 .success "heading-order-ok" "Heading hierarchy is consistent."
        headings.head? none none
    else r.1
  else r.1

/-- Check 6a: Open Graph tags. -/
def ogBlock (d : Doc) (html : List Char) (out : List AuditResult) : List AuditResult :=
  let ogT := d.querySelector (fun n => tagIs "meta" n && attrEq "property" "og:title" n)
  let ogD := d.querySelector (fun n => tagIs "meta" n && attrEq "property" "og:description" n)
  let ogI := d.querySelector (fun n => tagIs "meta" n && attrEq "property" "og:image" n)
  if ogT.isSome && ogD.isSome && ogI.isSome then
    push html out .success "og-ok" "Open Graph tags present (title/description/image)." ogT
      none none
  else
    push html out .warning "og-missing" "Missing one or more OG tags (title/description/image)."
      (some d.head) (some "Add og:title, og:description, and og:image meta tags.") none

/-- Check 6b: Twitter card. -/
def twitterBlock (d : Doc) (html : List Char) (out : List AuditResult) : List AuditResult :=
  let tw := d.querySelector (fun n => tagIs "meta" n && attrEq "name" "twitter:card" n)
  if tw.isSome then
    push html out .success "twitter-card-ok" "Twitter Card present." tw none none
  else
    push html out .warning "twitter-card-missing" "Twitter Card missing." (some d.head)
      (some "Add <meta name=\"twitter:card\" content=\"summary_large_image\">.") none

/-- Check 7: images need a non-blank `alt`. -/
def imgAltBlock (d : Doc) (html : List Char) (out : List AuditResult) : List AuditResult :=
  let imgs := d.querySelectorAll (tagIs "img")
  let noAlt := imgs.filter (fun img => trimStr ((img.getAttribute "alt").getD "") == "")
  if noAlt.length ≠ 0 then
    push html out .error "img-alt-missing" (toString noAlt.length ++ " image(s) missing alt.")
      noAlt.head? (some "Add concise, meaningful alt text for non-decorative images.") none
  else if imgs.length ≠ 0 then
    push html out .success "img-alt-ok" "All images have alt text." imgs.head? none none
  else out

/-- Check 8a: links need accessible names. -/
def linkNamesBlock (d : Doc) (html : List Char) (out : List AuditResult) : List AuditResult :=
  let anchors := d.querySelectorAll (tagIs "a")
  let nameless := anchors.filter (fun a =>
    collapseWs a.textContent == "" && trimStr ((a.getAttribute "aria-label").getD "") == "")
  if nameless.length ≠ 0 then
    push html out .error "link-name-missing"
      (toString nameless.length ++ " link(s) lack accessible names.") nameless.head?
      (some "Provide link text or aria-label that describes the destination.") none
  else if anchors.length ≠ 0 then
    push html out .success "link-name-ok" "All links have accessible names." anchors.head?
      none none
  else out

/-- Check 8b: `target=_blank` links need `rel=noopener` or
`rel=noreferrer` (case-insensitive substring test). -/
def linkRelBlock (d : Doc) (html : List Char) (out : List AuditResult) : List AuditResult :=
  let anchors := d.querySelectorAll (tagIs "a")
  let blankNoRel := (anchors.filter (fun a =>
    a.getAttribute "target" == some "_blank" &&
      !(containsStr (lowerStr ((a.getAttribute "rel").getD "")) "noopener" ||
        containsStr (lowerStr ((a.getAttribute "rel").getD "")) "noreferrer"))).length
  if blankNoRel ≠ 0 then
    push html out .warning "link-rel-missing"
      (toString blankNoRel ++ " link(s) use target=_blank without rel=noopener.")
      (anchors.find? (fun a => a.getAttribute "target" == some "_blank"))
      (some "Add rel=\"noopener\" (or rel=\"noopener noreferrer\") to external links opening in new tab.")
      none
  else if anchors.length ≠ 0 then
    push html out .success "link-rel-ok" "All external links use rel=noopener when target=_blank."
      anchors.head? none none
  else out

/-! ## The interpolated duplicate-id selector

The duplicate-id check builds the selector text `[id="v"]` with the
duplicated id value `v` interpolated raw into the CSS string.  A value
that breaks the string (an unescaped `"`, an unescaped newline, or a
trailing backslash) makes the selector invalid, `querySelector` throws,
and — the call being outside any try/catch — the audit run raises. -/

/-- Does `v`, placed between the double quotes of a CSS string, break
it?  Scanning left to right: a backslash escapes the next character
(with none left, it escapes the closing quote, leaving the string
unterminated); an unescaped `"` closes the string early, leaving
garbage before the `]`; an unescaped newline (`\n`, `\r`, form feed) is
not allowed in a CSS string. -/
def cssStringBreaks : List Char → Bool
  | [] => false
  | c :: rest =>
    if c == '\\' then
      match rest with
      | [] => true
      | _ :: rest2 => cssStringBreaks rest2
    else if c == '"' || c == '\n' || c == '\r' || c == '\x0c' then true
    else cssStringBreaks rest

def isHexDigitC (c : Char) : Bool := c.isDigit || ('a' ≤ c && c ≤ 'f') || ('A' ≤ c && c ≤ 'F')

def hexVal (c : Char) : Nat :=
  if c.isDigit then c.toNat - 48 else if 'a' ≤ c && c ≤ 'f' then c.toNat - 87 else c.toNat - 55

/-- Consume up to `n` further hex digits, extending the accumulated
code point. -/
def hexPrefix : Nat → List Char → Nat → Nat × List Char
  | 0, cs, acc => (acc, cs)
  | _ + 1, [], acc => (acc, [])
  | n + 1, c :: cs, acc =>
    if isHexDigitC c then hexPrefix n cs (acc * 16 + hexVal c) else (acc, c :: cs)

/-- CSS string unescaping (the attribute value the parsed selector then
compares for): `\` + up to six hex digits (one following whitespace
consumed) is the code point; `\` + newline is a line continuation; `\` +
any other character is that character.  Structurally fuelled by the
input length, which suffices: every step consumes at least one input
character. -/
def cssUnescapeF : Nat → List Char → List Char
  | 0, _ => []
  | _ + 1, [] => []
  | f + 1, c :: rest =>
    if c == '\\' then
      match rest with
      | [] => []
      | e :: rest2 =>
        if isHexDigitC e then
          match hexPrefix 5 rest2 (hexVal e) with
          | (v, rest3) =>
            match rest3 with
            | w :: r =>
              if w.isWhitespace then Char.ofNat v :: cssUnescapeF f r
              else Char.ofNat v :: cssUnescapeF f (w :: r)
            | [] => [Char.ofNat v]
        else if e == '\n' then cssUnescapeF f rest2
        else e :: cssUnescapeF f rest2
    else c :: cssUnescapeF f rest

def cssUnescape (cs : List Char) : List Char := cssUnescapeF cs.length cs

/-- ``doc.querySelector(`[id="${v}"]`)`` with `v` interpolated raw: a
string-breaking `v` is an invalid selector — `querySelector` throws —
otherwise the first element whose `id` attribute equals the unescaped
string value. -/
def cssIdQuery (d : Doc) (v : String) : Except String (Option Node) :=
  if cssStringBreaks v.toList then Except.error "SyntaxError: unable to parse selector"
  else Except.ok (d.querySelector (fun n =>
    n.getAttribute "id" == some (cssUnescape v.toList).asString))

/-- Check 9: duplicate ids — the one check that can raise: the first
duplicated id value is interpolated raw into the selector text, and
`querySelector` throws on the resulting invalid selector whenever the
value breaks the CSS string. -/
def dupIdsBlock (d : Doc) (html : List Char) (out : List AuditResult) :
    Except String (List AuditResult) :=
  let idCounts := tally ((d.querySelectorAll (hasAttr "id")).map
    (fun el => (el.getAttribute "id").getD ""))
  let dups := idCounts.filter (fun kc => decide (1 < kc.2))
  if dups.length ≠ 0 then
    match cssIdQuery d ((dups.head?.map (fun kc => kc.1)).getD "") with
    | Except.error e => Except.error e
    | Except.ok elq =>
      Except.ok (push html out .warning "dup-ids"
        (toString dups.length ++ " duplicate id(s) detected.") elq
        (some "Ensure IDs are unique per element.") none)
  else
    Except.ok (push html out .success "dup-ids-ok" "No duplicate ids found."
      (some d.documentElement) none none)

/-- `runSeoA11yAudit(html)` : run the fixed battery of checks in order,
threading the shared output sequence through each section.  The final,
duplicate-id section can throw (see `dupIdsBlock`); the exception
propagates out of the audit, discarding the accumulated findings. -/
def runSeoA11yAudit (d : Doc) (html : List Char) : Except String (List AuditResult) :=
  let out : List AuditResult := []
  let out := langBlock d html out
  let out := titleBlock d html out
  let out := metaDescBlock d html out
  let out := canonicalBlock d html out
  let out := h1Block d html out
  let out := headingOrderBlock d html out
  let out := ogBlock d html out
  let out := twitterBlock d html out
  let out := imgAltBlock d html out
  let out := linkNamesBlock d html out
  let out := linkRelBlock d html out
  dupIdsBlock d html out

/-- The findings one check contributes on its own. -/
def checkLang (d : Doc) (html : List Char) : List AuditResult := langBlock d html []

/-- The findings the title check contributes on its own. -/
def checkTitle (d : Doc) (html : List Char) : List AuditResult := titleBlock d html []

/-- The findings the meta-description check contributes on its own. -/
def checkMetaDesc (d : Doc) (html : List Char) : List AuditResult := metaDescBlock d html []

/-- The findings the canonical check contributes on its own. -/
def checkCanonical (d : Doc) (html : List Char) : List AuditResult := canonicalBlock d html []

/-- The findings the single-H1 check contributes on its own. -/
def checkH1 (d : Doc) (html : List Char) : List AuditResult := h1Block d html []

/-- The findings the heading-order check contributes on its own. -/
def checkHeadingOrder (d : Doc) (html : List Char) : List AuditResult := headingOrderBlock d html []

/-- The findings the Open Graph check contributes on its own. -/
def checkOg (d : Doc) (html : List Char) : List AuditResult := ogBlock d html []

/-- The findings the Twitter-card check contributes on its own. -/
def checkTwitter (d : Doc) (html : List Char) : List AuditResult := twitterBlock d html []

/-- The findings the image-alt check contributes on its own. -/
def checkImgAlt (d : Doc) (html : List Char) : List AuditResult := imgAltBlock d html []

/-- The findings the link-name check contributes on its own. -/
def checkLinkNames (d : Doc) (html : List Char) : List AuditResult := linkNamesBlock d html []

/-- The findings the link-rel check contributes on its own. -/
def checkLinkRel (d : Doc) (html : List Char) : List AuditResult := linkRelBlock d html []

/-- The outcome of the duplicate-id check on its own: its findings, or
the selector error it raises. -/
def checkDupIds (d : Doc) (html : List Char) : Except String (List AuditResult) :=
  dupIdsBlock d html []

/-- The findings of a non-raising outcome (`[]` on an error). -/
def getOk (e : Except String (List AuditResult)) : List AuditResult :=
  match e with
  | Except.ok l => l
  | Except.error _ => []

/-! ## Lemmas: line and column computation -/

theorem splitBreaks_ne_nil (cs : List Char) : splitBreaks cs ≠ [] := by
  induction cs using splitBreaks.induct <;> simp_all [splitBreaks]

/-- The number of segments of the line-break split is one more than the
number of line-break sequences. -/
theorem splitBreaks_length (cs : List Char) : (splitBreaks cs).length = countBreaks cs + 1 := by
  induction cs using splitBreaks.induct <;> simp_all [splitBreaks, countBreaks] <;> omega

theorem lastIndexOfC_ge (cs : List Char) (c : Char) : -1 ≤ lastIndexOfC cs c := by
  induction cs with
  | nil => simp [lastIndexOfC]
  | cons d cs ih =>
    simp only [lastIndexOfC]
    split
    · omega
    · split <;> omega

theorem lastIndexOfC_lt (cs : List Char) (c : Char) : lastIndexOfC cs c < cs.length := by
  induction cs with
  | nil => simp [lastIndexOfC]
  | cons d cs ih =>
    simp only [lastIndexOfC, List.length_cons]
    split
    · push_cast
      omega
    · split <;> push_cast <;> omega

/-- The source's `max(pre.lastIndexOf("\n"), pre.lastIndexOf("\r"))` is
exactly the position of the last line-break character (`-1` if none). -/
theorem maxLast_eq_lastBreakPos (cs : List Char) :
    max (lastIndexOfC cs '\n') (lastIndexOfC cs '\r') =
      (lastBreakPos cs).elim (-1 : Int) (fun p => (p : Int)) := by
  induction cs with
  | nil => simp [lastIndexOfC, lastBreakPos]
  | cons d cs ih =>
    have hn := lastIndexOfC_ge cs '\n'
    have hr := lastIndexOfC_ge cs '\r'
    simp only [lastIndexOfC, lastBreakPos]
    cases hb : lastBreakPos cs with
    | some p =>
      rw [hb] at ih
      simp only [Option.elim] at ih ⊢
      push_cast
      split_ifs <;> omega
    | none =>
      rw [hb] at ih
      simp only [Option.elim] at ih ⊢
      have hn0 : lastIndexOfC cs '\n' = -1 := by omega
      have hr0 : lastIndexOfC cs '\r' = -1 := by omega
      rw [hn0, hr0]
      cases h1 : (d == '\n') <;> cases h2 : (d == '\r') <;>
        simp [isBreakChar, h1, h2] <;> omega

theorem lastBreakPos_none_spec (cs : List Char) (h : lastBreakPos cs = none) :
    ∀ j, j < cs.length → isBreakChar (cs.getD j ' ') = false := by
  induction cs with
  | nil => intro j hj; simp at hj
  | cons d cs ih =>
    simp only [lastBreakPos] at h
    cases hb : lastBreakPos cs with
    | some q => rw [hb] at h; simp at h
    | none =>
      rw [hb] at h
      have hd : isBreakChar d = false := by
        by_contra hcon
        rw [if_pos (by revert hcon; cases isBreakChar d <;> simp)] at h
        simp at h
      intro j hj
      cases j with
      | zero => simpa using hd
      | succ j' =>
        simp only [List.getD_cons_succ]
        exact ih hb j' (by simpa using hj)

/-- `lastBreakPos` really is the nearest preceding line break: it points
at a line-break character and no later position holds one. -/
theorem lastBreakPos_some_spec (cs : List Char) (p : Nat) (h : lastBreakPos cs = some p) :
    p < cs.length ∧ isBreakChar (cs.getD p ' ') = true ∧
      ∀ j, p < j → j < cs.length → isBreakChar (cs.getD j ' ') = false := by
  induction cs generalizing p with
  | nil => simp [lastBreakPos] at h
  | cons d cs ih =>
    simp only [lastBreakPos] at h
    cases hb : lastBreakPos cs with
    | some q =>
      rw [hb] at h
      obtain rfl : q + 1 = p := by simpa using h
      obtain ⟨h1, h2, h3⟩ := ih q hb
      refine ⟨by simpa using Nat.succ_lt_succ h1, by simpa using h2, ?_⟩
      intro j hj1 hj2
      obtain ⟨j', rfl⟩ : ∃ j', j = j' + 1 := ⟨j - 1, by omega⟩
      simp only [List.getD_cons_succ]
      exact h3 j' (by omega) (by simpa using hj2)
    | none =>
      rw [hb] at h
      have hd : isBreakChar d = true := by
        by_contra hcon
        rw [if_neg (by revert hcon; cases isBreakChar d <;> simp)] at h
        simp at h
      rw [if_pos hd] at h
      obtain rfl : 0 = p := by simpa using h
      refine ⟨by simp, by simpa using hd, ?_⟩
      intro j hj1 hj2
      obtain ⟨j', rfl⟩ : ∃ j', j = j' + 1 := ⟨j - 1, by omega⟩
      simp only [List.getD_cons_succ]
      exact lastBreakPos_none_spec cs hb j' (by simpa using hj2)

/-! ## Lemmas: the search scan -/

/-- The character preceding position `j` of `cs` (none at the start). -/
def prevAt (cs : List Char) (j : Nat) : Option Char :=
  if j = 0 then none else some (cs.getD (j - 1) ' ')

theorem searchFrom_spec (p : List RTok) :
    ∀ (cs : List Char) (prev : Option Char) (i r : Nat), searchFrom p cs prev i = some r →
      i ≤ r ∧ r - i ≤ cs.length ∧
      matchToks p (cs.drop (r - i)) (if r = i then prev else some (cs.getD (r - i - 1) ' ')) = true ∧
      ∀ j, j < r - i → matchToks p (cs.drop j) (if j = 0 then prev else some (cs.getD (j - 1) ' ')) = false := by
  intro cs
  induction cs with
  | nil =>
    intro prev i r h
    rw [searchFrom_eq] at h
    by_cases hm : matchToks p [] prev = true
    · rw [if_pos hm] at h
      obtain rfl : i = r := by simpa using h
      simp [hm]
    · rw [if_neg hm] at h
      simp at h
  | cons d cs ih =>
    intro prev i r h
    rw [searchFrom_eq] at h
    by_cases hm : matchToks p (d :: cs) prev = true
    · rw [if_pos hm] at h
      obtain rfl : i = r := by simpa using h
      simp [hm]
    · rw [if_neg hm] at h
      obtain ⟨h1, h2, h3, h4⟩ := ih (some d) (i + 1) r h
      have hri : i + 1 ≤ r := h1
      refine ⟨by omega, ?_, ?_, ?_⟩
      · simp only [List.length_cons]
        omega
      · have hdrop : (d :: cs).drop (r - i) = cs.drop (r - (i + 1)) := by
          have : r - i = (r - (i + 1)) + 1 := by omega
          rw [this, List.drop_succ_cons]
        rw [hdrop, if_neg (by omega)]
        rcases Nat.eq_or_lt_of_le hri with heq | hlt
        · rw [if_pos heq.symm] at h3
          have : r - i - 1 = 0 := by omega
          rw [this]
          simpa using h3
        · rw [if_neg (by omega)] at h3
          have e1 : r - i - 1 = (r - (i + 1) - 1) + 1 := by omega
          rw [e1, List.getD_cons_succ]
          exact h3
      · intro j hj
        cases j with
        | zero => simpa using hm
        | succ j' =>
          have hj' : j' < r - (i + 1) := by omega
          have := h4 j' hj'
          rw [List.drop_succ_cons]
          by_cases hz : j' = 0
          · subst hz
            rw [if_pos rfl] at this
            simpa using this
          · rw [if_neg hz] at this
            have e1 : j' + 1 - 1 = (j' - 1) + 1 := by omega
            rw [if_neg (by omega), e1, List.getD_cons_succ]
            exact this

/-- `regexSearch` returns the index of the first match: the pattern
matches there and at no earlier position. -/
theorem regexSearch_spec (p : List RTok) (cs : List Char) (r : Nat)
    (h : regexSearch p cs = some r) :
    r ≤ cs.length ∧ matchToks p (cs.drop r) (prevAt cs r) = true ∧
      ∀ j, j < r → matchToks p (cs.drop j) (prevAt cs j) = false := by
  obtain ⟨h1, h2, h3, h4⟩ := searchFrom_spec p cs none 0 r h
  refine ⟨by omega, ?_, ?_⟩
  · unfold prevAt
    simpa using h3
  · intro j hj
    unfold prevAt
    simpa using h4 j (by omega)

/-- The position computation, in specification form: the line is `1 +`
the number of line-break sequences before the match, the column is the
offset from the nearest preceding line break (`idx + 1` from the text
start when there is none), the snippet is the clamped
`[idx - 120, idx + after)` window. -/
theorem locAt_eq (html : List Char) (idx after : Nat) :
    locAt html idx after =
      { line := some ((countBreaks (html.take idx) : Int) + 1),
        column := some (match lastBreakPos (html.take idx) with
          | some p => (idx : Int) - (p : Int)
          | none => (idx : Int) + 1),
        snippet := some
          (((html.drop (idx - 120)).take (min html.length (idx + after) - (idx - 120))).asString) } := by
  unfold locAt
  have hline : ((splitBreaks (html.take idx)).length : Int) = (countBreaks (html.take idx) : Int) + 1 := by
    rw [splitBreaks_length]
    push_cast
    ring
  have hmax := maxLast_eq_lastBreakPos (html.take idx)
  cases hb : lastBreakPos (html.take idx) with
  | some p =>
    rw [hb] at hmax
    simp only [Option.elim] at hmax
    have hge : (0 : Int) ≤ max (lastIndexOfC (html.take idx) '\n') (lastIndexOfC (html.take idx) '\r') := by
      rw [hmax]
      positivity
    simp [Locator.mk.injEq, hline, hmax, if_pos hge]
  | none =>
    rw [hb] at hmax
    simp only [Option.elim] at hmax
    have hlt : ¬(0 : Int) ≤ max (lastIndexOfC (html.take idx) '\n') (lastIndexOfC (html.take idx) '\r') := by
      rw [hmax]
      omega
    simp [Locator.mk.injEq, hline, hmax, if_neg hlt]

theorem strIndexOf_le (needle : String) :
    ∀ (hay : List Char) (r : Nat), strIndexOf hay needle.toList = some r → r ≤ hay.length := by
  intro hay
  induction hay with
  | nil =>
    intro r h
    unfold strIndexOf at h
    split at h
    · simp at h
      omega
    · simp at h
  | cons d cs ih =>
    intro r h
    unfold strIndexOf at h
    split at h
    · simp at h
      omega
    · simp only [Option.map_eq_some'] at h
      obtain ⟨r', hr', rfl⟩ := h
      have := ih r' hr'
      simp only [List.length_cons]
      omega

/-! ## Lemmas: each check section only appends to the output -/

theorem langBlock_eq (d : Doc) (html : List Char) (out : List AuditResult) :
    langBlock d html out = out ++ checkLang d html := by
  simp only [langBlock, checkLang, push]
  split <;> simp

theorem titleBlock_eq (d : Doc) (html : List Char) (out : List AuditResult) :
    titleBlock d html out = out ++ checkTitle d html := by
  simp only [titleBlock, checkTitle, push]
  split <;> [skip; split] <;> simp

theorem metaDescBlock_eq (d : Doc) (html : List Char) (out : List AuditResult) :
    metaDescBlock d html out = out ++ checkMetaDesc d html := by
  simp only [metaDescBlock, checkMetaDesc, push]
  split <;> [skip; split] <;> simp

theorem canonicalBlock_eq (d : Doc) (html : List Char) (out : List AuditResult) :
    canonicalBlock d html out = out ++ checkCanonical d html := by
  simp only [canonicalBlock, checkCanonical, push]
  split <;> simp

theorem h1Block_eq (d : Doc) (html : List Char) (out : List AuditResult) :
    h1Block d html out = out ++ checkH1 d html := by
  simp only [h1Block, checkH1, push]
  split <;> simp

theorem hoGo_acc (html : List Char) :
    ∀ (hs : List Node) (out : List AuditResult) (prev idx issues : Nat),
      hoGo html out hs prev idx issues =
        (out ++ (hoGo html [] hs prev idx issues).1, (hoGo html [] hs prev idx issues).2) := by
  intro hs
  induction hs with
  | nil => intro out prev idx issues; simp [hoGo]
  | cons h hs ih =>
    intro out prev idx issues
    simp only [hoGo]
    split
    · rw [ih (push html out _ _ _ _ _ _), ih (push html [] _ _ _ _ _ _)]
      simp [push, List.append_assoc]
    · rw [ih out, ih []]

theorem headingOrderBlock_eq (d : Doc) (html : List Char) (out : List AuditResult) :
    headingOrderBlock d html out = out ++ checkHeadingOrder d html := by
  simp only [headingOrderBlock, checkHeadingOrder, push]
  rw [hoGo_acc html (d.querySelectorAll isHeading) out 0 0 0]
  split <;> [split; skip] <;> simp

theorem ogBlock_eq (d : Doc) (html : List Char) (out : List AuditResult) :
    ogBlock d html out = out ++ checkOg d html := by
  simp only [ogBlock, checkOg, push]
  split <;> simp

theorem twitterBlock_eq (d : Doc) (html : List Char) (out : List AuditResult) :
    twitterBlock d html out = out ++ checkTwitter d html := by
  simp only [twitterBlock, checkTwitter, push]
  split <;> simp

theorem imgAltBlock_eq (d : Doc) (html : List Char) (out : List AuditResult) :
    imgAltBlock d html out = out ++ checkImgAlt d html := by
  simp only [imgAltBlock, checkImgAlt, push]
  split <;> [skip; split] <;> simp

theorem linkNamesBlock_eq (d : Doc) (html : List Char) (out : List AuditResult) :
    linkNamesBlock d html out = out ++ checkLinkNames d html := by
  simp only [linkNamesBlock, checkLinkNames, push]
  split <;> [skip; split] <;> simp

theorem linkRelBlock_eq (d : Doc) (html : List Char) (out : List AuditResult) :
    linkRelBlock d html out = out ++ checkLinkRel d html := by
  simp only [linkRelBlock, checkLinkRel, push]
  split <;> [skip; split] <;> simp

theorem dupIdsBlock_eq (d : Doc) (html : List Char) (out : List AuditResult) :
    dupIdsBlock d html out = (checkDupIds d html).map (fun l => out ++ l) := by
  simp only [dupIdsBlock, checkDupIds, push]
  split
  · split <;> simp [Except.map]
  · simp [Except.map]

/-- The audit outcome is the duplicate-id check's outcome with the
other eleven checks' emissions, in the fixed battery order, prepended
to its findings. -/
theorem runSeoA11yAudit_eq (d : Doc) (html : List Char) :
    runSeoA11yAudit d html =
      (checkDupIds d html).map (fun l =>
        checkLang d html ++ checkTitle d html ++ checkMetaDesc d html ++ checkCanonical d html ++
          checkH1 d html ++ checkHeadingOrder d html ++ checkOg d html ++ checkTwitter d html ++
          checkImgAlt d html ++ checkLinkNames d html ++ checkLinkRel d html ++ l) := by
  simp only [runSeoA11yAudit]
  rw [dupIdsBlock_eq]
  simp only [linkRelBlock_eq, linkNamesBlock_eq, imgAltBlock_eq, twitterBlock_eq,
    ogBlock_eq, headingOrderBlock_eq, h1Block_eq, canonicalBlock_eq, metaDescBlock_eq,
    titleBlock_eq, langBlock_eq]
  cases checkDupIds d html <;> simp [Except.map, List.append_assoc]

/-! ## Lemmas: the heading-order walk -/

/-- The headings list the heading checks operate on. -/
def headingsOf (d : Doc) : List Node := d.querySelectorAll isHeading

/-- Specification of the walk: one entry `(idx, prev, h)` per heading
`h` whose level exceeds the previous non-zero level `prev` by more than
one; `idx` is the heading's index in the walked list. -/
def jumpsFrom : List Node → Nat → Nat → List (Nat × Nat × Node)
  | [], _, _ => []
  | h :: hs, prev, idx =>
    (if prev ≠ 0 ∧ prev + 1 < headingLevel h then [(idx, prev, h)] else []) ++
      jumpsFrom hs (headingLevel h) (idx + 1)

/-- The warning finding emitted for one jump. -/
def mkJumpWarning (html : List Char) (t : Nat × Nat × Node) : AuditResult :=
  mkFinding html .warning ("heading-order-" ++ toString t.1)
    ("Heading jumps from H" ++ toString t.2.1 ++ " to H" ++ toString (headingLevel t.2.2) ++ ".")
    (some t.2.2) (some "Adjust heading levels to avoid skipping levels.") none

/-- The walk emits exactly the jump warnings, in order, and counts them. -/
theorem hoGo_structure (html : List Char) :
    ∀ (hs : List Node) (prev idx issues : Nat),
      hoGo html [] hs prev idx issues =
        ((jumpsFrom hs prev idx).map (mkJumpWarning html),
          issues + (jumpsFrom hs prev idx).length) := by
  intro hs
  induction hs with
  | nil => intro prev idx issues; simp [hoGo, jumpsFrom]
  | cons h hs ih =>
    intro prev idx issues
    simp only [hoGo, jumpsFrom]
    split
    · rw [hoGo_acc html hs (push html [] _ _ _ _ _ _) (headingLevel h) (idx + 1) (issues + 1),
        ih (headingLevel h) (idx + 1) (issues + 1)]
      simp [push, mkJumpWarning]
      omega
    · rw [ih (headingLevel h) (idx + 1) issues]
      simp

/-- Indexed characterization of the jump positions: position `i` is a
jump exactly when the level at `i` exceeds the non-zero level at `i - 1`
(at `i = 0` the previous level is the walk's start value) by more than one. -/
theorem jumpsFrom_indexed :
    ∀ (hs : List Node) (prev idx : Nat),
      jumpsFrom hs prev idx =
        (List.range hs.length).filterMap (fun i =>
          if (if i = 0 then prev else headingLevel (hs.getD (i - 1) (Node.text ""))) ≠ 0 ∧
              (if i = 0 then prev else headingLevel (hs.getD (i - 1) (Node.text ""))) + 1 <
                headingLevel (hs.getD i (Node.text "")) then
            some (idx + i, (if i = 0 then prev else headingLevel (hs.getD (i - 1) (Node.text ""))),
              hs.getD i (Node.text ""))
          else none) := by
  intro hs
  induction hs with
  | nil => intro prev idx; simp [jumpsFrom]
  | cons h hs ih =>
    intro prev idx
    rw [jumpsFrom, ih (headingLevel h) (idx + 1), List.length_cons, List.range_succ_eq_map,
      List.filterMap_cons, List.filterMap_map]
    have hcong : ∀ i ∈ List.range hs.length,
        ((fun i =>
          if (if i = 0 then prev else headingLevel ((h :: hs).getD (i - 1) (Node.text ""))) ≠ 0 ∧
              (if i = 0 then prev else headingLevel ((h :: hs).getD (i - 1) (Node.text ""))) + 1 <
                headingLevel ((h :: hs).getD i (Node.text "")) then
            some (idx + i,
              (if i = 0 then prev else headingLevel ((h :: hs).getD (i - 1) (Node.text ""))),
              (h :: hs).getD i (Node.text ""))
          else none) ∘ Nat.succ) i =
        (fun i =>
          if (if i = 0 then headingLevel h else headingLevel (hs.getD (i - 1) (Node.text ""))) ≠ 0 ∧
              (if i = 0 then headingLevel h else headingLevel (hs.getD (i - 1) (Node.text ""))) + 1 <
                headingLevel (hs.getD i (Node.text "")) then
            some (idx + 1 + i,
              (if i = 0 then headingLevel h else headingLevel (hs.getD (i - 1) (Node.text ""))),
              hs.getD i (Node.text ""))
          else none) i := by
      intro i hi
      cases i with
      | zero => simp
      | succ j =>
        have e3 : idx + (j + 1 + 1) = idx + 1 + (j + 1) := by omega
        simp [Function.comp_apply, Nat.succ_eq_add_one, List.getD_cons_succ, e3]
    rw [List.filterMap_congr hcong]
    by_cases hc : prev ≠ 0 ∧ prev + 1 < headingLevel h
    · simp [hc]
    · simp [hc]

/-! ## Lemmas: the id tally -/

/-- Specification of `find?` : the returned element satisfies the
predicate and everything before it fails it. -/
theorem find?_decomp {α : Type} (p : α → Bool) :
    ∀ (l : List α) (x : α), l.find? p = some x →
      p x = true ∧ ∃ l1 l2, l = l1 ++ x :: l2 ∧ ∀ y ∈ l1, p y = false := by
  intro l
  induction l with
  | nil => intro x h; simp [List.find?] at h
  | cons a l ih =>
    intro x h
    rw [List.find?] at h
    cases hp : p a with
    | true =>
      rw [hp] at h
      obtain rfl : a = x := by simpa using h
      exact ⟨hp, [], l, by simp, by simp⟩
    | false =>
      rw [hp] at h
      obtain ⟨hx, l1, l2, rfl, hall⟩ := ih x h
      refine ⟨hx, a :: l1, l2, by simp, ?_⟩
      intro y hy
      rcases List.mem_cons.mp hy with rfl | hy
      · exact hp
      · exact hall y hy

/-- `locateElement` either fails with the empty locator (pattern
construction failed, or no match) or reports the position of the
matched index. -/
theorem locateElement_cases (el : Node) (html : List Char) :
    locateElement el html = { line := none, column := none, snippet := none } ∨
    ∃ p idx, patternFor el = some p ∧ regexSearch p html = some idx ∧
      locateElement el html = locAt html idx 240 := by
  cases hp : patternFor el with
  | none =>
    left
    unfold locateElement
    rw [hp]
  | some p =>
    cases h : regexSearch p html with
    | none =>
      left
      unfold locateElement
      rw [hp]
      show (match regexSearch p html with
        | some idx => locAt html idx 240
        | none => ({} : Locator)) = _
      rw [h]
    | some idx =>
      right
      refine ⟨p, idx, rfl, h, ?_⟩
      unfold locateElement
      rw [hp]
      show (match regexSearch p html with
        | some idx => locAt html idx 240
        | none => ({} : Locator)) = _
      rw [h]

theorem locateQuery_cases (html : List Char) (q : String) :
    (strIndexOf html q.toList = none ∧
      locateQuery html q = { line := none, column := none, snippet := none }) ∨
    ∃ idx, strIndexOf html q.toList = some idx ∧
      locateQuery html q = locAt html idx (q.length + 120) := by
  unfold locateQuery
  cases h : strIndexOf html q.toList with
  | none => exact Or.inl ⟨rfl, rfl⟩
  | some idx => exact Or.inr ⟨idx, rfl, rfl⟩

theorem locAt_line_ge_one (html : List Char) (idx after : Nat) (n : Int)
    (h : (locAt html idx after).line = some n) : 1 ≤ n := by
  rw [locAt_eq] at h
  simp only [Locator.mk.injEq] at h
  obtain rfl : ((countBreaks (html.take idx) : Int) + 1) = n := by simpa using h
  omega

theorem locAt_column_ge_one (html : List Char) (idx after : Nat) (n : Int)
    (h : (locAt html idx after).column = some n) : 1 ≤ n := by
  unfold locAt at h
  simp only [Option.some.injEq] at h
  have hlen : ((html.take idx).length : Int) ≤ (idx : Int) := by
    simp [List.length_take]
  have hn := lastIndexOfC_lt (html.take idx) '\n'
  have hr := lastIndexOfC_lt (html.take idx) '\r'
  subst h
  split <;> omega

/-- The locator offered to the emitter: non-empty fields can only come
from a successful node match (the node's pattern having compiled) or a
successful literal-substring match. -/
def locFound (html : List Char) (el : Option Node) (q : Option String) : Prop :=
  match el with
  | some e => ∃ p, patternFor e = some p ∧ (regexSearch p html).isSome = true
  | none =>
    match q with
    | some s => (strIndexOf html s.toList).isSome = true
    | none => False

/-! ## Lemmas: every audit finding comes from the emitter -/

theorem mem_checkLang (d : Doc) (html : List Char) (f : AuditResult)
    (h : f ∈ checkLang d html) :
    ∃ sev fid msg el r q, f = mkFinding html sev fid msg el r q := by
  simp only [checkLang, langBlock, push, List.nil_append] at h
  split at h <;> (rw [List.mem_singleton] at h; subst h; exact ⟨_, _, _, _, _, _, rfl⟩)

theorem mem_checkTitle (d : Doc) (html : List Char) (f : AuditResult)
    (h : f ∈ checkTitle d html) :
    ∃ sev fid msg el r q, f = mkFinding html sev fid msg el r q := by
  simp only [checkTitle, titleBlock, push, List.nil_append] at h
  split at h
  · rw [List.mem_singleton] at h; subst h; exact ⟨_, _, _, _, _, _, rfl⟩
  · split at h <;> (rw [List.mem_singleton] at h; subst h; exact ⟨_, _, _, _, _, _, rfl⟩)

theorem mem_checkMetaDesc (d : Doc) (html : List Char) (f : AuditResult)
    (h : f ∈ checkMetaDesc d html) :
    ∃ sev fid msg el r q, f = mkFinding html sev fid msg el r q := by
  simp only [checkMetaDesc, metaDescBlock, push, List.nil_append] at h
  split at h
  · rw [List.mem_singleton] at h; subst h; exact ⟨_, _, _, _, _, _, rfl⟩
  · split at h <;> (rw [List.mem_singleton] at h; subst h; exact ⟨_, _, _, _, _, _, rfl⟩)

theorem mem_checkCanonical (d : Doc) (html : List Char) (f : AuditResult)
    (h : f ∈ checkCanonical d html) :
    ∃ sev fid msg el r q, f = mkFinding html sev fid msg el r q := by
  simp only [checkCanonical, canonicalBlock, push, List.nil_append] at h
  split at h <;> (rw [List.mem_singleton] at h; subst h; exact ⟨_, _, _, _, _, _, rfl⟩)

theorem mem_checkH1 (d : Doc) (html : List Char) (f : AuditResult)
    (h : f ∈ checkH1 d html) :
    ∃ sev fid msg el r q, f = mkFinding html sev fid msg el r q := by
  simp only [checkH1, h1Block, push, List.nil_append] at h
  split at h <;> (rw [List.mem_singleton] at h; subst h; exact ⟨_, _, _, _, _, _, rfl⟩)

/-- The emission sequence of the heading-order check. -/
theorem checkHeadingOrder_eq (d : Doc) (html : List Char) :
    checkHeadingOrder d html =
      (jumpsFrom (headingsOf d) 0 0).map (mkJumpWarning html) ++
        (if (jumpsFrom (headingsOf d) 0 0).length = 0 ∧ 0 < (headingsOf d).length then
          [mkFinding html .success "heading-order-ok" "Heading hierarchy is consistent."
            (headingsOf d).head? none none]
        else []) := by
  simp only [checkHeadingOrder, headingOrderBlock, headingsOf]
  rw [hoGo_structure html (d.querySelectorAll isHeading) 0 0 0]
  by_cases h1 : (jumpsFrom (d.querySelectorAll isHeading) 0 0).length = 0
  · by_cases h2 : 0 < (d.querySelectorAll isHeading).length
    · simp [h1, h2, push]
    · simp [h1, h2]
  · simp [h1, push]

theorem mem_checkHeadingOrder (d : Doc) (html : List Char) (f : AuditResult)
    (h : f ∈ checkHeadingOrder d html) :
    ∃ sev fid msg el r q, f = mkFinding html sev fid msg el r q := by
  rw [checkHeadingOrder_eq] at h
  rcases List.mem_append.mp h with h | h
  · obtain ⟨t, _, rfl⟩ := List.mem_map.mp h
    exact ⟨_, _, _, _, _, _, rfl⟩
  · split at h
    · rw [List.mem_singleton] at h; subst h; exact ⟨_, _, _, _, _, _, rfl⟩
    · simp at h

theorem mem_checkOg (d : Doc) (html : List Char) (f : AuditResult)
    (h : f ∈ checkOg d html) :
    ∃ sev fid msg el r q, f = mkFinding html sev fid msg el r q := by
  simp only [checkOg, ogBlock, push, List.nil_append] at h
  split at h <;> (rw [List.mem_singleton] at h; subst h; exact ⟨_, _, _, _, _, _, rfl⟩)

theorem mem_checkTwitter (d : Doc) (html : List Char) (f : AuditResult)
    (h : f ∈ checkTwitter d html) :
    ∃ sev fid msg el r q, f = mkFinding html sev fid msg el r q := by
  simp only [checkTwitter, twitterBlock, push, List.nil_append] at h
  split at h <;> (rw [List.mem_singleton] at h; subst h; exact ⟨_, _, _, _, _, _, rfl⟩)

theorem mem_checkImgAlt (d : Doc) (html : List Char) (f : AuditResult)
    (h : f ∈ checkImgAlt d html) :
    ∃ sev fid msg el r q, f = mkFinding html sev fid msg el r q := by
  simp only [checkImgAlt, imgAltBlock, push, List.nil_append] at h
  split at h
  · rw [List.mem_singleton] at h; subst h; exact ⟨_, _, _, _, _, _, rfl⟩
  · split at h
    · rw [List.mem_singleton] at h; subst h; exact ⟨_, _, _, _, _, _, rfl⟩
    · simp at h

theorem mem_checkLinkNames (d : Doc) (html : List Char) (f : AuditResult)
    (h : f ∈ checkLinkNames d html) :
    ∃ sev fid msg el r q, f = mkFinding html sev fid msg el r q := by
  simp only [checkLinkNames, linkNamesBlock, push, List.nil_append] at h
  split at h
  · rw [List.mem_singleton] at h; subst h; exact ⟨_, _, _, _, _, _, rfl⟩
  · split at h
    · rw [List.mem_singleton] at h; subst h; exact ⟨_, _, _, _, _, _, rfl⟩
    · simp at h

theorem mem_checkLinkRel (d : Doc) (html : List Char) (f : AuditResult)
    (h : f ∈ checkLinkRel d html) :
    ∃ sev fid msg el r q, f = mkFinding html sev fid msg el r q := by
  simp only [checkLinkRel, linkRelBlock, push, List.nil_append] at h
  split at h
  · rw [List.mem_singleton] at h; subst h; exact ⟨_, _, _, _, _, _, rfl⟩
  · split at h
    · rw [List.mem_singleton] at h; subst h; exact ⟨_, _, _, _, _, _, rfl⟩
    · simp at h

theorem mem_checkDupIds (d : Doc) (html : List Char) (l : List AuditResult) (f : AuditResult)
    (hok : checkDupIds d html = Except.ok l) (h : f ∈ l) :
    ∃ sev fid msg el r q, f = mkFinding html sev fid msg el r q := by
  simp only [checkDupIds, dupIdsBlock, push, List.nil_append] at hok
  split at hok
  · split at hok
    · simp at hok
    · obtain rfl : _ = l := by simpa using hok
      rw [List.mem_singleton] at h; subst h; exact ⟨_, _, _, _, _, _, rfl⟩
  · obtain rfl : _ = l := by simpa using hok
    rw [List.mem_singleton] at h; subst h; exact ⟨_, _, _, _, _, _, rfl⟩

/-- Every finding of one completed audit run is one emitter call's
result (all checks report through `push`). -/
theorem mem_audit (d : Doc) (html : List Char) (out : List AuditResult) (f : AuditResult)
    (hrun : runSeoA11yAudit d html = Except.ok out) (h : f ∈ out) :
    ∃ sev fid msg el r q, f = mkFinding html sev fid msg el r q := by
  rw [runSeoA11yAudit_eq] at hrun
  cases hdup : checkDupIds d html with
  | error e => rw [hdup] at hrun; simp [Except.map] at hrun
  | ok l =>
    rw [hdup] at hrun
    simp only [Except.map, Except.ok.injEq] at hrun
    subst hrun
    simp only [List.mem_append] at h
    rcases h with ((((((((((h | h) | h) | h) | h) | h) | h) | h) | h) | h) | h) | h
    exacts [mem_checkLang d html f h, mem_checkTitle d html f h, mem_checkMetaDesc d html f h,
      mem_checkCanonical d html f h, mem_checkH1 d html f h, mem_checkHeadingOrder d html f h,
      mem_checkOg d html f h, mem_checkTwitter d html f h, mem_checkImgAlt d html f h,
      mem_checkLinkNames d html f h, mem_checkLinkRel d html f h,
      mem_checkDupIds d html l f hdup h]

/-! ## Lemmas: tag-name compilation and the interpolated selector -/

/-- A tag name of regex-ordinary characters compiles to itself: every
character is matched literally. -/
theorem compileTagList_lits :
    ∀ (cs : List Char), (∀ c ∈ cs, escapeClassChars.contains c = false) →
      compileTagList cs = some (cs.map RTok.lit) := by
  intro cs
  induction cs with
  | nil => intro h; rfl
  | cons c cs ih =>
    intro h
    have hc := h c (List.mem_cons_self c cs)
    have hdot : ¬(c = '.') := by
      intro hcon
      subst hcon
      simp [escapeClassChars] at hc
    have ihh := ih (fun c2 hc2 => h c2 (List.mem_cons_of_mem _ hc2))
    simp only [compileTagList, compileTagChar]
    rw [if_neg (by simpa using hdot), if_neg (by rw [hc]; simp), ihh]
    rfl

/-- The duplicate-id check emits exactly one finding whenever it does
not raise. -/
theorem checkDupIds_ok_length (d : Doc) (html : List Char) (l : List AuditResult)
    (h : checkDupIds d html = Except.ok l) : l.length = 1 := by
  simp only [checkDupIds, dupIdsBlock, push, List.nil_append] at h
  split at h
  · split at h
    · simp at h
    · obtain rfl : _ = l := by simpa using h
      rfl
  · obtain rfl : _ = l := by simpa using h
    rfl

/-- The parsed `<meta name="description" content="x">` node. -/
def metaDescNode : Node := .element "META" [("name", "description"), ("content", "x")] []

/-- The markup of the spec's locator example. -/
def exHtmlC1 : String := "line1\n<meta name=\"description\" content=\"x\">\nline3"

/-- A document whose title is `Home` (length 4) and whose root carries
`lang="en"`. -/
def titleHome : Node := .element "TITLE" [] [.text "Home"]

def headHome : Node := .element "HEAD" [] [titleHome]

def docHome : Doc :=
  ⟨.element "HTML" [("lang", "en")] [headHome, .element "BODY" [] []], headHome,
    .element "BODY" [] []⟩

def htmlHome : String := "<html lang=\"en\"><head><title>Home</title></head><body></body></html>"

/-- A document with no `<title>` element whose raw markup nevertheless
contains the literal text `<title>` (inside an attribute value), with
the head element on line 1 and the literal on line 2. -/
def headNT : Node := .element "HEAD" [] []

def bodyNT : Node := .element "BODY" [] [.element "DIV" [("data-x", "<title>")] []]

def docNT : Doc := ⟨.element "HTML" [] [headNT, bodyNT], headNT, bodyNT⟩

def htmlNT : String := "<html><head></head>\n<body><div data-x=\"<title>\"></div></body></html>"

/-- A document whose body holds `<h1>A</h1><h3>B</h3>`. -/
def bodyH1H3 : Node :=
  .element "BODY" [] [.element "H1" [] [.text "A"], .element "H3" [] [.text "B"]]

def docH1H3 : Doc :=
  ⟨.element "HTML" [] [.element "HEAD" [] [], bodyH1H3], .element "HEAD" [] [], bodyH1H3⟩

def htmlH1H3 : String := "<h1>A</h1><h3>B</h3>"

/-- A node whose tag name holds a metacharacter that leaves the
interpolated pattern valid: the `.` acts as the any-character class
(the lenient parser produces such tag names, e.g. from `<a.b>`). -/
def nodeDotTag : Node := .element "A.B" [] []

/-- A node whose tag name makes the interpolated pattern invalid (an
unbalanced group): the `RegExp` constructor throws on it. -/
def nodeParenTag : Node := .element "A(" [] []

/-- A second document of the same shape, with duplicated id `x"y`. -/
def bodyQuoteB : Node :=
  .element "BODY" [] [.element "DIV" [("id", "x\"y")] [], .element "DIV" [("id", "x\"y")] []]

def docQuoteB : Doc :=
  ⟨.element "HTML" [] [.element "HEAD" [] [], bodyQuoteB], .element "HEAD" [] [], bodyQuoteB⟩

def htmlQuoteB : String :=
  "<html><body><div id='x\"y'></div><div id='x\"y'></div></body></html>"

/-! ## The claims -/

/-- C1: for both locator entry points, a match at index `idx` is reported
with line `1 +` the number of line-break sequences (`\r\n`, `\r`, `\n`
each one separator) before the match; column the 1-based offset from the
nearest preceding line break (`idx + 1` from the start when none exists
— `lastBreakPos` really is the nearest preceding break); snippet the raw
window from 120 before the match to 240 after (node path) or match
length plus 120 after (literal path), clamped, and trimmed when stored
on the finding.  On `line1\n<meta name="description" content="x">\nline3`
the meta-description node is located on line 2 with a snippet containing
the full meta tag. -/
theorem claim_C1_locator_positions :
    (∀ (el : Node) (html : List Char) (p : List RTok) (idx : Nat),
      patternFor el = some p → regexSearch p html = some idx →
      locateElement el html =
        { line := some (1 + (countBreaks (html.take idx) : Int)),
          column := some (match lastBreakPos (html.take idx) with
            | some p => (idx : Int) - (p : Int)
            | none => (idx : Int) + 1),
          snippet := some
            (((html.drop (idx - 120)).take (min html.length (idx + 240) - (idx - 120))).asString) }) ∧
    (∀ (html : List Char) (q : String) (idx : Nat),
      strIndexOf html q.toList = some idx →
      locateQuery html q =
        { line := some (1 + (countBreaks (html.take idx) : Int)),
          column := some (match lastBreakPos (html.take idx) with
            | some p => (idx : Int) - (p : Int)
            | none => (idx : Int) + 1),
          snippet := some
            (((html.drop (idx - 120)).take (min html.length (idx + q.length + 120) - (idx - 120))).asString) }) ∧
    (∀ (html : List Char) (sev : Severity) (fid msg : String) (el : Option Node)
      (r q : Option String),
      (mkFinding html sev fid msg el r q).snippet = ((locFor html el q).snippet).map trimStr) ∧
    (∀ (cs : List Char) (p : Nat), lastBreakPos cs = some p →
      p < cs.length ∧ isBreakChar (cs.getD p ' ') = true ∧
        ∀ j, p < j → j < cs.length → isBreakChar (cs.getD j ' ') = false) ∧
    (locateElement metaDescNode exHtmlC1.toList).line = some 2 ∧
    (locateElement metaDescNode exHtmlC1.toList).snippet = some exHtmlC1 ∧
    (∃ a b : String, exHtmlC1 = a ++ "<meta name=\"description\" content=\"x\">" ++ b) := by
  refine ⟨?_, ?_, ?_, ?_, ?_, ?_, ?_⟩
  · intro el html p idx hp h
    unfold locateElement
    rw [hp]
    show (match regexSearch p html with
      | some idx => locAt html idx 240
      | none => ({} : Locator)) = _
    rw [h]
    show locAt html idx 240 = _
    rw [locAt_eq]
    simp only [Locator.mk.injEq, Option.some.injEq, Nat.add_assoc]
    refine ⟨by omega, trivial, trivial⟩
  · intro html q idx h
    unfold locateQuery
    rw [h]
    show locAt html idx (q.length + 120) = _
    rw [locAt_eq]
    simp only [Locator.mk.injEq, Option.some.injEq, Nat.add_assoc]
    refine ⟨by omega, trivial, trivial⟩
  · intro html sev fid msg el r q
    rfl
  · exact fun cs p h => lastBreakPos_some_spec cs p h
  · decide
  · decide
  · exact ⟨"line1\n", "\nline3", by decide⟩

theorem claim_C1_witness :
    patternFor metaDescNode = some (patAttr ("meta".toList.map RTok.lit) "name" "description") ∧
      regexSearch (patAttr ("meta".toList.map RTok.lit) "name" "description") exHtmlC1.toList =
        some 6 ∧
      (locateElement metaDescNode exHtmlC1.toList).line =
        some (1 + (countBreaks (exHtmlC1.toList.take 6) : Int)) := by
  refine ⟨by decide, by decide, ?_⟩
  have h := claim_C1_locator_positions.1 metaDescNode exHtmlC1.toList
    (patAttr ("meta".toList.map RTok.lit) "name" "description") 6 (by decide) (by decide)
  rw [h]

/-- C2: the emitter's finding carries a selector exactly when a node was
supplied, and its line, column and snippet can be present only when
location recovery succeeded (the node pattern matched, or the literal
substring was found, in the raw markup). -/
theorem claim_C2_selector_location_invariant :
    ∀ (html : List Char) (sev : Severity) (fid msg : String) (el : Option Node)
      (r q : Option String),
      ((mkFinding html sev fid msg el r q).selector.isSome = true ↔ el.isSome = true) ∧
      ((mkFinding html sev fid msg el r q).line.isSome = true → locFound html el q) ∧
      ((mkFinding html sev fid msg el r q).column.isSome = true → locFound html el q) ∧
      ((mkFinding html sev fid msg el r q).snippet.isSome = true → locFound html el q) := by
  intro html sev fid msg el r q
  have hsel : (mkFinding html sev fid msg el r q).selector = el.map cssSelector := rfl
  have hline : (mkFinding html sev fid msg el r q).line = (locFor html el q).line := rfl
  have hcol : (mkFinding html sev fid msg el r q).column = (locFor html el q).column := rfl
  have hsnip : (mkFinding html sev fid msg el r q).snippet =
    ((locFor html el q).snippet).map trimStr := rfl
  have hloc : (locFound html el q) ∨
      locFor html el q = { line := none, column := none, snippet := none } := by
    cases el with
    | some e =>
      rcases locateElement_cases e html with he | ⟨p, idx, hp, hs, he⟩
      · right
        show locateElement e html = _
        exact he
      · left
        show ∃ p2, patternFor e = some p2 ∧ (regexSearch p2 html).isSome = true
        exact ⟨p, hp, by rw [hs]; rfl⟩
    | none =>
      cases q with
      | none =>
        right
        rfl
      | some s =>
        by_cases hq : s = ""
        · right
          show (if s = "" then ({} : Locator) else locateQuery html s) = _
          rw [if_pos hq]
        · rcases locateQuery_cases html s with ⟨hn, he⟩ | ⟨idx, hs, he⟩
          · right
            show (if s = "" then ({} : Locator) else locateQuery html s) = _
            rw [if_neg hq]
            exact he
          · left
            show (strIndexOf html s.toList).isSome = true
            rw [hs]
            rfl
  refine ⟨?_, ?_, ?_, ?_⟩
  · rw [hsel]
    cases el <;> simp
  · rw [hline]
    rcases hloc with hf | he
    · exact fun _ => hf
    · rw [he]
      intro hcon
      simp at hcon
  · rw [hcol]
    rcases hloc with hf | he
    · exact fun _ => hf
    · rw [he]
      intro hcon
      simp at hcon
  · rw [hsnip]
    rcases hloc with hf | he
    · exact fun _ => hf
    · rw [he]
      intro hcon
      simp at hcon

theorem claim_C2_witness :
    (mkFinding htmlHome.toList Severity.success "lang-ok" "HTML lang present (en)."
        (some docHome.documentElement) none none).line.isSome = true ∧
      locFound htmlHome.toList (some docHome.documentElement) none := by
  refine ⟨by decide, ?_⟩
  exact (claim_C2_selector_location_invariant htmlHome.toList Severity.success "lang-ok"
    "HTML lang present (en)." (some docHome.documentElement) none none).2.1 (by decide)

/-- The title node the title check queries. -/
def titleQ (d : Doc) : Option Node := d.querySelector (tagIs "title")

/-- `titleEl?.textContent?.trim() || ""`. -/
def titleTextOf (d : Doc) : String := ((titleQ d).map (fun t => trimStr t.textContent)).getD ""

/-- C4 (counterexample): on a document with no title element whose raw
markup still contains the literal text `<title>` (on line 2, inside an
attribute), the missing-title finding reports line 1 — the by-node
locator's result for the head element — while the literal query
`"<title>"` would report line 2.  The missing-title location is
therefore not derived via the literal query. -/
theorem claim_C4_counterexample :
    (checkTitle docNT htmlNT.toList).map (fun f => f.line) = [some 1] ∧
      (locateQuery htmlNT.toList "<title>").line = some 2 ∧
      ((some 1 : Option Int) ≠ some 2) := by
  refine ⟨by decide, by decide, by decide⟩

/-- C4 (amended): the title check emits an error when there is no
non-empty title text, a warning citing the measured length when the
trimmed length is outside `[10, 60]`, and a success otherwise; the
title `"Home"` yields id `title-length`, severity warning, message
citing length 4.  When no title node exists, the finding's node is the
document head (always an element), so the location comes from the
by-node locator on the head; the literal query `"<title>"` is passed to
the emitter but unused, because the emitter ignores the query whenever a
node is supplied. -/
theorem claim_C4_title_check :
    (∀ (d : Doc) (html : List Char), titleTextOf d = "" →
      checkTitle d html =
        [mkFinding html .error "title-missing" "Missing <title>." (some ((titleQ d).getD d.head))
          (some "Add a descriptive, unique <title> (10–60 chars).") (some "<title>")]) ∧
    (∀ (html : List Char) (sev : Severity) (fid msg : String) (e : Node) (r : Option String)
      (q : Option String),
      mkFinding html sev fid msg (some e) r q = mkFinding html sev fid msg (some e) r none) ∧
    (∀ (d : Doc) (html : List Char), titleTextOf d ≠ "" →
      ((titleTextOf d).length < 10 ∨ 60 < (titleTextOf d).length) →
      checkTitle d html =
        [mkFinding html .warning "title-length"
          ("Title length " ++ toString (titleTextOf d).length ++ " (aim 10–60).") (titleQ d)
          (some "Rewrite title to recommended length.") none]) ∧
    (∀ (d : Doc) (html : List Char), titleTextOf d ≠ "" →
      ¬((titleTextOf d).length < 10 ∨ 60 < (titleTextOf d).length) →
      checkTitle d html =
        [mkFinding html .success "title-ok"
          ("Title present and well sized (" ++ toString (titleTextOf d).length ++ ").") (titleQ d)
          none none]) ∧
    (checkTitle docHome htmlHome.toList).map (fun f => (f.id, f.severity, f.message)) =
      [("title-length", Severity.warning, "Title length 4 (aim 10–60).")] := by
  refine ⟨?_, ?_, ?_, ?_, by decide⟩
  · intro d html h
    simp only [checkTitle, titleBlock, push, List.nil_append]
    rw [if_pos (show ((d.querySelector (tagIs "title")).map
      (fun t => trimStr t.textContent)).getD "" = "" from h)]
    rfl
  · intro html sev fid msg e r q
    rfl
  · intro d html h hlen
    simp only [checkTitle, titleBlock, push, List.nil_append]
    rw [if_neg (show ¬((d.querySelector (tagIs "title")).map
        (fun t => trimStr t.textContent)).getD "" = "" from h),
      if_pos (show (((d.querySelector (tagIs "title")).map
        (fun t => trimStr t.textContent)).getD "").length < 10 ∨
          60 < (((d.querySelector (tagIs "title")).map
            (fun t => trimStr t.textContent)).getD "").length from hlen)]
    rfl
  · intro d html h hlen
    simp only [checkTitle, titleBlock, push, List.nil_append]
    rw [if_neg (show ¬((d.querySelector (tagIs "title")).map
        (fun t => trimStr t.textContent)).getD "" = "" from h),
      if_neg (show ¬((((d.querySelector (tagIs "title")).map
        (fun t => trimStr t.textContent)).getD "").length < 10 ∨
          60 < (((d.querySelector (tagIs "title")).map
            (fun t => trimStr t.textContent)).getD "").length) from hlen)]
    rfl

theorem claim_C4_witness :
    titleTextOf docNT = "" ∧ (checkTitle docNT htmlNT.toList).length = 1 := by
  refine ⟨by decide, ?_⟩
  have h := claim_C4_title_check.1 docNT htmlNT.toList (by decide)
  rw [h]
  rfl

/-- C5: the heading-order check walks the headings tracking the previous
level and emits, in walk order, exactly one warning per jump — a
position whose level exceeds the previous non-zero level by more than
one — with id `heading-order-` suffixed by the heading's sequence index
and a message citing the jump; when there are no jumps and at least one
heading, it emits one success finding citing the first heading.  On
`<h1>A</h1><h3>B</h3>` it emits exactly one warning, with id
`heading-order-1`, citing a jump from H1 to H3. -/
theorem claim_C5_heading_order :
    (∀ (d : Doc) (html : List Char),
      checkHeadingOrder d html =
        (jumpsFrom (headingsOf d) 0 0).map (mkJumpWarning html) ++
          (if (jumpsFrom (headingsOf d) 0 0).length = 0 ∧ 0 < (headingsOf d).length then
            [mkFinding html .success "heading-order-ok" "Heading hierarchy is consistent."
              (headingsOf d).head? none none]
          else [])) ∧
    (∀ (hs : List Node),
      jumpsFrom hs 0 0 =
        (List.range hs.length).filterMap (fun i =>
          if (if i = 0 then 0 else headingLevel (hs.getD (i - 1) (Node.text ""))) ≠ 0 ∧
              (if i = 0 then 0 else headingLevel (hs.getD (i - 1) (Node.text ""))) + 1 <
                headingLevel (hs.getD i (Node.text "")) then
            some (0 + i, (if i = 0 then 0 else headingLevel (hs.getD (i - 1) (Node.text ""))),
              hs.getD i (Node.text ""))
          else none)) ∧
    (∀ (html : List Char) (t : Nat × Nat × Node),
      (mkJumpWarning html t).id = "heading-order-" ++ toString t.1 ∧
      (mkJumpWarning html t).severity = Severity.warning ∧
      (mkJumpWarning html t).message =
        "Heading jumps from H" ++ toString t.2.1 ++ " to H" ++ toString (headingLevel t.2.2) ++ ".") ∧
    (checkHeadingOrder docH1H3 htmlH1H3.toList).map (fun f => (f.id, f.severity, f.message)) =
      [("heading-order-1", Severity.warning, "Heading jumps from H1 to H3.")] := by
  refine ⟨checkHeadingOrder_eq, fun hs => jumpsFrom_indexed hs 0 0, ?_, by decide⟩
  intro html t
  exact ⟨rfl, rfl, rfl⟩

/-- C7 (counterexample): the tag name is interpolated into the pattern
text unescaped, so its metacharacters keep their regex meaning.  For a
node with tag name `A.B` and no usable attribute, the fallback pattern
reports a match on the markup `<axb>` — in which the bare opening tag
text `<a.b` occurs nowhere — because the `.` matches any character;
the fallback therefore does not match the first occurrence of the bare
opening tag name. -/
theorem claim_C7_counterexample :
    (locateElement nodeDotTag "<axb>".toList).line = some 1 ∧
      strIndexOf "<axb>".toList "<a.b".toList = none := by
  refine ⟨by decide, by decide⟩

/-- C7 (amended): the by-node locator selects the disambiguating
attribute as the first of `id`, `name`, `property`, `rel`, `href`,
`src` whose value is non-empty after trimming (every earlier candidate
is unusable).  The tag name is interpolated into the pattern unescaped:
a tag name of regex-ordinary characters compiles to itself, so it is
matched literally, while a `.` in the tag name matches any character
and a tag name on which the `RegExp` constructor throws yields no
pattern (the locator catches the throw into the empty locator).  When
the tag name compiles, the selected attribute yields the attribute
pattern and a missing selection the bare opening-tag fallback; the
built pattern searches case-insensitively (lower-casing the markup does
not change the match); the search finds the first occurrence (no
earlier position matches); and the attribute value is matched literally
— its regex metacharacters are escaped, so the value `a.b` does not
match `axb`. -/
theorem claim_C7_pattern_priority :
    (∀ (el : Node) (kv : String × Option String), prioritySelect el = some kv →
      usable kv = true ∧ ∃ l1 l2, attrCandidates el = l1 ++ kv :: l2 ∧
        ∀ kv2 ∈ l1, usable kv2 = false) ∧
    (∀ tn : String, (∀ c ∈ tn.toList, escapeClassChars.contains c = false) →
      compileTag tn = some (tn.toList.map RTok.lit)) ∧
    (∀ (el : Node) (toks : List RTok) (k v : String),
      compileTag (lowerStr el.tagName) = some toks → prioritySelect el = some (k, some v) →
      patternFor el = some (patAttr toks k v)) ∧
    (∀ (el : Node) (toks : List RTok),
      compileTag (lowerStr el.tagName) = some toks → prioritySelect el = none →
      patternFor el = some (patFallback toks)) ∧
    (∀ (p : List RTok) (cs : List Char),
      regexSearch p (cs.map Char.toLower) = regexSearch p cs) ∧
    (∀ (p : List RTok) (cs : List Char) (idx : Nat), regexSearch p cs = some idx →
      idx ≤ cs.length ∧ matchToks p (cs.drop idx) (prevAt cs idx) = true ∧
        ∀ j, j < idx → matchToks p (cs.drop j) (prevAt cs j) = false) ∧
    (matchToks (patAttr ("div".toList.map RTok.lit) "id" "a.b")
        "<div id=\"a.b\">".toList none = true ∧
      matchToks (patAttr ("div".toList.map RTok.lit) "id" "a.b")
        "<div id=\"axb\">".toList none = false ∧
      matchToks (patAttr ("meta".toList.map RTok.lit) "name" "description")
        "<META NAME='Description' CONTENT='x'>".toList none = true) ∧
    (compileTag "a.b" = some [RTok.lit 'a', RTok.anyDot, RTok.lit 'b'] ∧
      matchToks (patFallback [RTok.lit 'a', RTok.anyDot, RTok.lit 'b'])
        "<axb>".toList none = true ∧
      patternFor nodeParenTag = none) := by
  refine ⟨?_, ?_, ?_, ?_, ?_, ?_, ⟨by decide, by decide, by decide⟩,
    ⟨by decide, by decide, by decide⟩⟩
  · intro el kv h
    exact find?_decomp usable (attrCandidates el) kv h
  · intro tn h
    exact compileTagList_lits tn.toList h
  · intro el toks k v hc h
    unfold patternFor
    show (match compileTag (lowerStr el.tagName) with
      | none => none
      | some tagToks =>
        match prioritySelect el with
        | some (k, some v) => some (patAttr tagToks k v)
        | _ => some (patFallback tagToks)) = _
    rw [hc]
    show (match prioritySelect el with
      | some (k, some v) => some (patAttr toks k v)
      | _ => some (patFallback toks)) = _
    rw [h]
  · intro el toks hc h
    unfold patternFor
    show (match compileTag (lowerStr el.tagName) with
      | none => none
      | some tagToks =>
        match prioritySelect el with
        | some (k, some v) => some (patAttr tagToks k v)
        | _ => some (patFallback tagToks)) = _
    rw [hc]
    show (match prioritySelect el with
      | some (k, some v) => some (patAttr toks k v)
      | _ => some (patFallback toks)) = _
    rw [h]
  · intro p cs
    exact regexSearch_toLower p cs
  · intro p cs idx h
    exact regexSearch_spec p cs idx h

theorem claim_C7_witness :
    prioritySelect metaDescNode = some ("name", some "description") ∧
      usable ("name", some "description") = true ∧
      compileTag "meta" = some ("meta".toList.map RTok.lit) := by
  refine ⟨by decide, ?_, ?_⟩
  · exact (claim_C7_pattern_priority.1 metaDescNode ("name", some "description") (by decide)).1
  · exact claim_C7_pattern_priority.2.1 "meta" (by decide)

/-- C8: the audit is deterministic — identical markup yields the
identical outcome, in particular the identical ordered finding sequence
(all fields included) whenever it completes — and the output order is
exactly the fixed check-execution order, never resorted: every
completed run's findings are the twelve checks' emissions concatenated
in battery order. -/
theorem claim_C8_deterministic_order :
    (∀ (d : Doc) (html1 html2 : List Char), html1 = html2 →
      runSeoA11yAudit d html1 = runSeoA11yAudit d html2) ∧
    (∀ (d : Doc) (html : List Char),
      runSeoA11yAudit d html =
        (checkDupIds d html).map (fun l =>
          checkLang d html ++ checkTitle d html ++ checkMetaDesc d html ++
            checkCanonical d html ++ checkH1 d html ++ checkHeadingOrder d html ++
            checkOg d html ++ checkTwitter d html ++ checkImgAlt d html ++
            checkLinkNames d html ++ checkLinkRel d html ++ l)) ∧
    (∀ (d : Doc) (html : List Char) (out : List AuditResult),
      runSeoA11yAudit d html = Except.ok out →
      ∃ l, checkDupIds d html = Except.ok l ∧
        out = checkLang d html ++ checkTitle d html ++ checkMetaDesc d html ++
          checkCanonical d html ++ checkH1 d html ++ checkHeadingOrder d html ++
          checkOg d html ++ checkTwitter d html ++ checkImgAlt d html ++
          checkLinkNames d html ++ checkLinkRel d html ++ l) := by
  refine ⟨?_, runSeoA11yAudit_eq, ?_⟩
  · intro d html1 html2 h
    rw [h]
  · intro d html out hrun
    rw [runSeoA11yAudit_eq] at hrun
    cases hdup : checkDupIds d html with
    | error e =>
      rw [hdup] at hrun
      simp [Except.map] at hrun
    | ok l =>
      rw [hdup] at hrun
      simp only [Except.map, Except.ok.injEq] at hrun
      exact ⟨l, rfl, hrun.symm⟩

theorem claim_C8_witness :
    runSeoA11yAudit docHome htmlHome.toList = runSeoA11yAudit docHome htmlHome.toList :=
  claim_C8_deterministic_order.1 docHome htmlHome.toList htmlHome.toList rfl

/-- C9 (counterexample): the audit does not emit at least eight
findings on every input: on a document with two elements sharing the id
value `x"y`, the duplicate-id check's interpolated selector is invalid,
the run raises, and no finding sequence is produced at all. -/
theorem claim_C9_counterexample :
    runSeoA11yAudit docQuoteB htmlQuoteB.toList =
      Except.error "SyntaxError: unable to parse selector" := by
  rfl

/-- C9 (amended): every completed audit run (every run on which the
duplicate-id check's interpolated selector does not throw; a throw
instead aborts the run with no findings) emits at least eight findings
— the language, title, meta-description, canonical, single-H1, Open
Graph, Twitter-card and duplicate-id checks each contribute exactly one
finding on every completed run — and the first finding always has id
`lang-missing` or `lang-ok`. -/
theorem claim_C9_always_emitted :
    ∀ (d : Doc) (html : List Char) (out : List AuditResult),
      runSeoA11yAudit d html = Except.ok out →
      8 ≤ out.length ∧
      (out.head?.map (fun f => f.id) = some "lang-missing" ∨
        out.head?.map (fun f => f.id) = some "lang-ok") ∧
      (checkLang d html).length = 1 ∧ (checkTitle d html).length = 1 ∧
      (checkMetaDesc d html).length = 1 ∧ (checkCanonical d html).length = 1 ∧
      (checkH1 d html).length = 1 ∧ (checkOg d html).length = 1 ∧
      (checkTwitter d html).length = 1 ∧
      (∃ l, checkDupIds d html = Except.ok l ∧ l.length = 1) := by
  intro d html out hrun
  have h1 : (checkLang d html).length = 1 := by
    simp only [checkLang, langBlock, push, List.nil_append]
    split <;> rfl
  have h2 : (checkTitle d html).length = 1 := by
    simp only [checkTitle, titleBlock, push, List.nil_append]
    split
    · rfl
    · split <;> rfl
  have h3 : (checkMetaDesc d html).length = 1 := by
    simp only [checkMetaDesc, metaDescBlock, push, List.nil_append]
    split
    · rfl
    · split <;> rfl
  have h4 : (checkCanonical d html).length = 1 := by
    simp only [checkCanonical, canonicalBlock, push, List.nil_append]
    split <;> rfl
  have h5 : (checkH1 d html).length = 1 := by
    simp only [checkH1, h1Block, push, List.nil_append]
    split <;> rfl
  have h6 : (checkOg d html).length = 1 := by
    simp only [checkOg, ogBlock, push, List.nil_append]
    split <;> rfl
  have h7 : (checkTwitter d html).length = 1 := by
    simp only [checkTwitter, twitterBlock, push, List.nil_append]
    split <;> rfl
  rw [runSeoA11yAudit_eq] at hrun
  cases hdup : checkDupIds d html with
  | error e =>
    rw [hdup] at hrun
    simp [Except.map] at hrun
  | ok l =>
    rw [hdup] at hrun
    simp only [Except.map, Except.ok.injEq] at hrun
    subst hrun
    have h8 : l.length = 1 := checkDupIds_ok_length d html l hdup
    refine ⟨?_, ?_, h1, h2, h3, h4, h5, h6, h7, ⟨l, rfl, h8⟩⟩
    · simp only [List.length_append]
      omega
    · have hshape : checkLang d html =
          [mkFinding html .error "lang-missing" "Missing <html lang>." (some d.documentElement)
            (some "Set the <html lang> attribute, e.g., <html lang=\"en\">.") none] ∨
          checkLang d html =
            [mkFinding html .success "lang-ok"
              ("HTML lang present (" ++
                ((d.documentElement.getAttribute "lang").map trimStr).getD "" ++ ").")
              (some d.documentElement) none none] := by
        simp only [checkLang, langBlock, push, List.nil_append]
        split
        · exact Or.inl rfl
        · exact Or.inr rfl
      rcases hshape with hfl | hfl <;> rw [hfl]
      · exact Or.inl rfl
      · exact Or.inr rfl

theorem claim_C9_witness :
    runSeoA11yAudit docHome htmlHome.toList =
        Except.ok (getOk (runSeoA11yAudit docHome htmlHome.toList)) ∧
      8 ≤ (getOk (runSeoA11yAudit docHome htmlHome.toList)).length := by
  refine ⟨by rfl, ?_⟩
  exact (claim_C9_always_emitted docHome htmlHome.toList
    (getOk (runSeoA11yAudit docHome htmlHome.toList)) (by rfl)).1

/-- Fields of the emitter's locator: line and column are present
together, and when present both are at least `1` (the line is a segment
count, the column is at least `1` above the nearest preceding break, or
the match index plus one from the text start). -/
theorem locFor_fields (html : List Char) (el : Option Node) (q : Option String) :
    ((locFor html el q).line.isSome = true ↔ (locFor html el q).column.isSome = true) ∧
    1 ≤ (locFor html el q).line.getD 1 ∧ 1 ≤ (locFor html el q).column.getD 1 := by
  have hcases : locFor html el q = { line := none, column := none, snippet := none } ∨
      ∃ idx after, locFor html el q = locAt html idx after := by
    cases el with
    | some e =>
      rcases locateElement_cases e html with he | ⟨p, idx, _, _, he⟩
      · exact Or.inl (by show locateElement e html = _; exact he)
      · exact Or.inr ⟨idx, 240, by show locateElement e html = _; exact he⟩
    | none =>
      cases q with
      | none => exact Or.inl rfl
      | some s =>
        by_cases hq : s = ""
        · refine Or.inl ?_
          show (if s = "" then ({} : Locator) else locateQuery html s) = _
          rw [if_pos hq]
        · rcases locateQuery_cases html s with ⟨_, he⟩ | ⟨idx, _, he⟩
          · refine Or.inl ?_
            show (if s = "" then ({} : Locator) else locateQuery html s) = _
            rw [if_neg hq]
            exact he
          · refine Or.inr ⟨idx, s.length + 120, ?_⟩
            show (if s = "" then ({} : Locator) else locateQuery html s) = _
            rw [if_neg hq]
            exact he
  rcases hcases with he | ⟨idx, after, he⟩
  · rw [he]
    simp
  · rw [he]
    obtain ⟨L, hL⟩ : ∃ L, (locAt html idx after).line = some L := ⟨_, rfl⟩
    obtain ⟨C, hC⟩ : ∃ C, (locAt html idx after).column = some C := ⟨_, rfl⟩
    have hbl := locAt_line_ge_one html idx after L hL
    have hbc := locAt_column_ge_one html idx after C hC
    rw [hL, hC]
    simpa using ⟨hbl, hbc⟩

/-- C10: in every finding of a completed audit run, the line is present
exactly when the column is present, and when present both are at least
1 (`getD 1` returns the value when present and the in-range default `1`
otherwise). -/
theorem claim_C10_line_column_together :
    ∀ (d : Doc) (html : List Char) (out : List AuditResult) (f : AuditResult),
      runSeoA11yAudit d html = Except.ok out → f ∈ out →
      (f.line.isSome = true ↔ f.column.isSome = true) ∧
      1 ≤ f.line.getD 1 ∧ 1 ≤ f.column.getD 1 := by
  intro d html out f hrun h
  obtain ⟨sev, fid, msg, el, r, q, rfl⟩ := mem_audit d html out f hrun h
  have hline : (mkFinding html sev fid msg el r q).line = (locFor html el q).line := rfl
  have hcol : (mkFinding html sev fid msg el r q).column = (locFor html el q).column := rfl
  rw [hline, hcol]
  exact locFor_fields html el q

theorem claim_C10_witness :
    runSeoA11yAudit docHome htmlHome.toList =
        Except.ok (getOk (runSeoA11yAudit docHome htmlHome.toList)) ∧
      (mkFinding htmlHome.toList Severity.success "lang-ok" "HTML lang present (en)."
          (some docHome.documentElement) none none) ∈
        getOk (runSeoA11yAudit docHome htmlHome.toList) ∧
      1 ≤ (mkFinding htmlHome.toList Severity.success "lang-ok" "HTML lang present (en)."
        (some docHome.documentElement) none none).line.getD 1 := by
  refine ⟨by rfl, by decide, ?_⟩
  exact (claim_C10_line_column_together docHome htmlHome.toList
    (getOk (runSeoA11yAudit docHome htmlHome.toList))
    (mkFinding htmlHome.toList Severity.success "lang-ok" "HTML lang present (en)."
      (some docHome.documentElement) none none) (by rfl) (by decide)).2.1

end SeoAudit
